import Mathlib

/-!
Verification of the role-based permission evaluation and role-transition
engine (`src/permission`): a shallow embedding in Lean 4 of the
`RoleStateManager`, `RoleSwitchService`, `PermissionController`, the
per-role permission strategies, and the `PermissionCacheManager`,
together with theorems settling the specification's claims about them.

Conventions of the embedding:
- JavaScript `Map` objects become association lists with unique keys,
  accessed through `mapGet` / `mapSet` / `mapDelete` below.
- `Date.now()` becomes an explicit `now : Nat` argument; a method that
  reads the clock several times in one synchronous run is modelled with a
  single `now`, as the calls are adjacent.
- Methods that can throw are translated so that every `throw` site maps
  to a distinct `SwitchError` constructor and the surrounding
  `try`/`catch` to the corresponding early return.
- The storage side effects of the per-role `enter`/`exit` hooks are not
  state of the engine; whether a hook throws is abstracted into an
  `EffectOracle`.
-/

namespace UbPermission

/-- `UserRole` enum from `types/index.ts`. -/
inductive UserRole where
  | guest
  | regular
  | channel
  | institutional
  | admin
deriving DecidableEq, Repr

/-- `PermissionAction` enum from `types/index.ts`. -/
inductive PermissionAction where
  | view
  | edit
  | delete
  | share
  | favorite
  | download
  | comment
  | create
deriving DecidableEq, Repr

/-- `ResourceType` enum from `types/index.ts`. -/
inductive ResourceType where
  | page
  | component
  | api
  | content
  | module
deriving DecidableEq, Repr

/-- `AccessControlAction` enum from `types/index.ts`. -/
inductive AccessControlAction where
  | readOnly
  | completeRestriction
  | unrestrictedAccess
  | loginGuidance
  | roleSwitchGuidance
  | approvalPending
  | accountException
deriving DecidableEq, Repr

/-- `RoleStatus` enum from `types/index.ts`. -/
inductive RoleStatus where
  | active
  | pending
  | disabled
  | expired
deriving DecidableEq, Repr

/-- `Permission` interface from `types/index.ts` (the data fields; the
optional `conditions: Record<string, any>` map is not consulted by any
code under verification and is omitted). -/
structure Permission where
  id : String
  name : String
  resourceType : ResourceType
  resourceId : String
  actions : List PermissionAction
  priority : Option Int
deriving DecidableEq, Repr

/-- `Role` interface from `types/index.ts` (optional config/metadata
fields that no verified code reads are omitted). -/
structure Role where
  id : String
  type : UserRole
  name : String
  permissions : List Permission
  status : RoleStatus
deriving DecidableEq, Repr

/-- `RoleSwitchRecord` interface from `types/index.ts`. -/
structure RoleSwitchRecord where
  id : String
  fromRole : UserRole
  toRole : UserRole
  switchTime : Nat
  reason : Option String
  success : Bool
deriving DecidableEq, Repr

/-- `UserRoleInfo` interface from `types/index.ts`. -/
structure UserRoleInfo where
  userId : String
  currentRole : Role
  availableRoles : List Role
  lastUpdated : Nat
deriving DecidableEq, Repr

/-- `RoleSwitchOptions` from `types/index.ts`: `targetRole`, `reason`,
`saveHistory` (the success/error callbacks are modelled at the call
sites; the unused `async`/`skipLocalUpdate` flags are omitted).
`saveHistory` is compared with `!== false` in the source, so the
`undefined` default behaves as `true`; we model it as a `Bool`. -/
structure RoleSwitchOptions where
  targetRole : UserRole
  reason : Option String
  saveHistory : Bool
deriving DecidableEq, Repr

/-! ### JavaScript `Map` and `Array` helpers -/

/-- `Map.get`: the value at the (unique) key, if present. -/
def mapGet {β : Type} (l : List (String × β)) (k : String) : Option β :=
  (l.find? (fun p => p.1 == k)).map (fun p => p.2)

/-- `Map.set`: replace the value at an existing key in place, otherwise
append the new binding (JS `Map` keeps insertion order). -/
def mapSet {β : Type} (l : List (String × β)) (k : String) (v : β) :
    List (String × β) :=
  if l.any (fun p => p.1 == k) then
    l.map (fun p => if p.1 == k then (k, v) else p)
  else
    l ++ [(k, v)]

/-- `Map.delete`: remove the binding at a key. -/
def mapDelete {β : Type} (l : List (String × β)) (k : String) :
    List (String × β) :=
  l.filter (fun p => !(p.1 == k))

/-- JavaScript `array.slice(-limit)` for a non-negative `limit`:
`-0 === 0`, so `limit = 0` yields the whole array, while a positive
`limit` yields the last `min limit length` elements. -/
def jsSliceLast {α : Type} (l : List α) (limit : Nat) : List α :=
  if limit = 0 then l else l.drop (l.length - limit)

/-! ### Role state machine (`RoleStateManager.ts`) -/

/-- The `canSwitchTo` predicate of the `IRoleState` object registered for
each role kind (`GuestState`, `RegularUserState`, `ChannelUserState`,
`InstitutionalUserState`, `AdminState`).  `AdminState.canSwitchTo` tests
membership in `Object.values(UserRole)`, which always holds. -/
def canSwitchTo (state : UserRole) (targetRole : UserRole) : Bool :=
  match state with
  | .guest => targetRole == .regular
  | .regular => [UserRole.channel, UserRole.institutional, UserRole.guest].contains targetRole
  | .channel => [UserRole.regular, UserRole.institutional].contains targetRole
  | .institutional => [UserRole.regular, UserRole.channel].contains targetRole
  | .admin => true

/-- The `handleSwitch` method of each `IRoleState` (its boolean outcome;
the methods read no mutable state).  Note it differs from `canSwitchTo`
for `RegularUserState`, which lists `guest` only in `canSwitchTo`. -/
def handleSwitch (state : UserRole) (targetRole : UserRole) : Bool :=
  match state with
  | .guest => targetRole == .regular
  | .regular => [UserRole.channel, UserRole.institutional].contains targetRole
  | .channel => [UserRole.regular, UserRole.institutional].contains targetRole
  | .institutional => [UserRole.regular, UserRole.channel].contains targetRole
  | .admin => true

/-- `RoleStateManager.validateRoleSwitch`: the `states` map is populated
with a state object for all five role kinds in `initializeStates`, so
the lookup always succeeds and the answer is that state's
`canSwitchTo`. -/
def validateRoleSwitch (fromRole : UserRole) (toRole : UserRole) : Bool :=
  canSwitchTo fromRole toRole

/-- `RoleStateManager.recordRoleSwitch`: push the record, then cap the
history at 50 by keeping the last 50 (`history.slice(-50)`). -/
def recordRoleSwitch (history : List RoleSwitchRecord)
    (record : RoleSwitchRecord) : List RoleSwitchRecord :=
  let h := history ++ [record]
  if h.length > 50 then jsSliceLast h 50 else h

/-- `RoleStateManager.getRoleSwitchHistory` on a principal's stored
history list: `history.slice(-limit).reverse()` with default
`limit = 10`.  The stored list itself is not modified (`slice` copies
and `reverse` runs on the copy), which the pure reading here reflects. -/
def getRoleSwitchHistory (history : List RoleSwitchRecord)
    (limit : Nat) : List RoleSwitchRecord :=
  (jsSliceLast history limit).reverse

/-! ### Wildcard pattern matching (`PermissionController.matchPattern`)

The source rewrites every `*` of the pattern into `.` `*` and every `?`
into `.`, wraps the result in the anchors `^` and `$`, and builds an
*unescaped* `RegExp` from it, so every other regex metacharacter
(`+ | ( ) [ ] { } ^ $ \`) keeps its regex meaning.  The embedding
compiles the rewritten pattern into the regular-expression fragment
below (literals, `.`, character classes, groups, alternation, the
quantifiers `*` and `+`, escaped metacharacters) and decides anchored
matching by Brzozowski derivatives: for a backreference-free,
lookaround-free regex, `RegExp.prototype.test` against `^...$` is
exactly language membership, which the derivative matcher decides.
Rewritten patterns outside the fragment (interior anchors, braces,
class escapes, backreferences, invalid syntax, ...) are not modelled:
`compilePattern` rejects them and the theorems below stay inside the
fragment, marked by `patternSupported`. -/

/-- Syntax of the compiled regular-expression fragment: empty language,
empty string, character class (negation flag plus inclusive ranges),
concatenation, alternation and Kleene star. -/
inductive JsRe where
  | emp : JsRe
  | eps : JsRe
  | cls (neg : Bool) (ranges : List (Char × Char)) : JsRe
  | seq (a b : JsRe) : JsRe
  | alt (a b : JsRe) : JsRe
  | star (a : JsRe) : JsRe
deriving Repr

/-- Membership of a character in a class: inside one of the inclusive
ranges, flipped by the negation flag. -/
def clsMem (neg : Bool) (ranges : List (Char × Char)) (c : Char) : Bool :=
  (ranges.any (fun r => decide (r.1 ≤ c) && decide (c ≤ r.2))) != neg

/-- The single-character class a literal compiles to. -/
def litRe (c : Char) : JsRe := .cls false [(c, c)]

/-- The ranges of the four JavaScript line terminators. -/
def dotRanges : List (Char × Char) :=
  [('\n', '\n'), ('\r', '\r'),
   (Char.ofNat 0x2028, Char.ofNat 0x2028), (Char.ofNat 0x2029, Char.ofNat 0x2029)]

/-- JavaScript `.` without the `s` flag: any character except the four
line terminators. -/
def dotRe : JsRe := .cls true dotRanges

/-- Whether a character is accepted by JavaScript `.`. -/
def jsDotChar (c : Char) : Bool :=
  !(c == '\n' || c == '\r' || c == Char.ofNat 0x2028 || c == Char.ofNat 0x2029)

/-- Whether the regex accepts the empty string. -/
def reNullable : JsRe → Bool
  | .emp => false
  | .eps => true
  | .cls _ _ => false
  | .seq a b => reNullable a && reNullable b
  | .alt a b => reNullable a || reNullable b
  | .star _ => true

/-- Brzozowski derivative: the residual regex after consuming `c`. -/
def reDeriv (c : Char) : JsRe → JsRe
  | .emp => .emp
  | .eps => .emp
  | .cls neg rs => if clsMem neg rs c then .eps else .emp
  | .seq a b =>
      if reNullable a then .alt (.seq (reDeriv c a) b) (reDeriv c b)
      else .seq (reDeriv c a) b
  | .alt a b => .alt (reDeriv c a) (reDeriv c b)
  | .star a => .seq (reDeriv c a) (.star a)

/-- Anchored (whole-string) matching by iterated derivatives. -/
def reMatchList : JsRe → List Char → Bool
  | r, [] => reNullable r
  | r, c :: cs => reMatchList (reDeriv c r) cs

/-- Language membership for the fragment: the specification that
`reMatchList` decides (theorem `reMatchList_iff`). -/
inductive ReMem : JsRe → List Char → Prop where
  | eps : ReMem .eps []
  | cls {neg : Bool} {rs : List (Char × Char)} {c : Char} :
      clsMem neg rs c = true → ReMem (.cls neg rs) [c]
  | seq {a b : JsRe} {x y : List Char} :
      ReMem a x → ReMem b y → ReMem (.seq a b) (x ++ y)
  | altL {a b : JsRe} {v : List Char} : ReMem a v → ReMem (.alt a b) v
  | altR {a b : JsRe} {v : List Char} : ReMem b v → ReMem (.alt a b) v
  | starNil {a : JsRe} : ReMem (.star a) []
  | starCons {a : JsRe} {c : Char} {x y : List Char} :
      ReMem a (c :: x) → ReMem (.star a) y → ReMem (.star a) (c :: (x ++ y))

/-- The rewrite of every `*` into `.` `*` and every `?` into `.`
(the source applies the two global replaces in that order; the first
introduces no `?`, so a single pass is equivalent). -/
def jsRewrite : List Char → List Char
  | [] => []
  | c :: rest =>
      if c == '*' then '.' :: '*' :: jsRewrite rest
      else if c == '?' then '.' :: jsRewrite rest
      else c :: jsRewrite rest

/-- The regex metacharacters of the rewritten pattern; every other
character stands for itself. -/
def regexSyntaxChars : List Char :=
  ['^', '$', '\\', '.', '*', '+', '?', '(', ')', '[', ']', '{', '}', '|']

/-- A character that neither the rewrite nor the regex syntax treats
specially. -/
def plainChar (c : Char) : Bool := !(regexSyntaxChars.contains c)

/-- Body of a character class `[...]` after the opening bracket and
optional negating caret: plain characters and `c-d` ranges, with a
trailing or leading `-` literal as in JavaScript.  A backslash, an
out-of-order range or an unterminated class is outside the fragment. -/
def parseClassBody : List Char → Option (List (Char × Char) × List Char)
  | [] => none
  | ']' :: rest => some ([], rest)
  | '\\' :: _ => none
  | c :: '-' :: d :: rest =>
      if d == ']' then some ([(c, c), ('-', '-')], rest)
      else if d == '\\' then none
      else if decide (c ≤ d) then
        match parseClassBody rest with
        | none => none
        | some (rs, rest') => some ((c, d) :: rs, rest')
      else none
  | c :: rest =>
      match parseClassBody rest with
      | none => none
      | some (rs, rest') => some ((c, c) :: rs, rest')

/-- Whether the input starts with a quantifier character. -/
def startsWithQuant : List Char → Bool
  | [] => false
  | c :: _ => c == '*' || c == '+'

/-- Postfix quantifiers on a parsed atom: `*` (Kleene star) and `+`
(one or more).  A quantifier applied to a quantifier is a JavaScript
`SyntaxError` and falls outside the fragment; no `?` can occur here,
because the rewrite has already replaced every `?` by `.`. -/
def applyQuantifier (a : JsRe) (cs : List Char) : Option (JsRe × List Char) :=
  match cs with
  | [] => some (a, [])
  | c :: rest =>
      if c == '*' then
        if startsWithQuant rest then none else some (.star a, rest)
      else if c == '+' then
        if startsWithQuant rest then none else some (.seq a (.star a), rest)
      else some (a, c :: rest)

/-- The three levels of the regex grammar: alternation, sequence of
quantified atoms, single atom. -/
inductive RegexLevel where
  | alternation : RegexLevel
  | sequence : RegexLevel
  | atom : RegexLevel

/-- Fuelled recursive-descent parser for the fragment, one grammar
level per `RegexLevel` value.  The fuel only bounds the call depth;
`compilePattern` supplies ample fuel, and the lemmas below establish
success directly for the pattern shapes they cover. -/
def parseRegex : Nat → RegexLevel → List Char → Option (JsRe × List Char)
  | 0, _, _ => none
  | fuel + 1, .alternation, cs =>
      match parseRegex fuel .sequence cs with
      | none => none
      | some (a, rest) =>
          match rest with
          | [] => some (a, [])
          | c :: rest' =>
              if c == '|' then
                match parseRegex fuel .alternation rest' with
                | none => none
                | some (b, rest'') => some (.alt a b, rest'')
              else some (a, c :: rest')
  | fuel + 1, .sequence, cs =>
      match cs with
      | [] => some (.eps, [])
      | c :: rest =>
          if c == ')' || c == '|' then some (.eps, c :: rest)
          else
            match parseRegex fuel .atom (c :: rest) with
            | none => none
            | some (a, rest') =>
                match applyQuantifier a rest' with
                | none => none
                | some (a', rest'') =>
                    match parseRegex fuel .sequence rest'' with
                    | none => none
                    | some (b, rest''') => some (.seq a' b, rest''')
  | fuel + 1, .atom, cs =>
      match cs with
      | [] => none
      | c :: rest =>
          if c == '(' then
            match parseRegex fuel .alternation rest with
            | some (r, d :: rest') => if d == ')' then some (r, rest') else none
            | _ => none
          else if c == '[' then
            match rest with
            | d :: rest' =>
                if d == '^' then
                  match parseClassBody rest' with
                  | none => none
                  | some (rs, rest'') => some (.cls true rs, rest'')
                else
                  match parseClassBody (d :: rest') with
                  | none => none
                  | some (rs, rest'') => some (.cls false rs, rest'')
            | [] => none
          else if c == '.' then some (dotRe, rest)
          else if c == '\\' then
            match rest with
            | d :: rest' =>
                if regexSyntaxChars.contains d || d == '/' then
                  some (litRe d, rest')
                else none
            | [] => none
          else if regexSyntaxChars.contains c then none
          else some (litRe c, rest)

/-- Compilation of a pattern exactly as `matchPattern` consumes it:
rewrite, then parse the whole rewritten string at the sequence level.
A rewritten pattern the parser cannot consume completely is outside
the modelled fragment.  In particular a *top-level* `|` is rejected:
the source's anchors do not scope over it (`^a|b$` is read as `^a`
or `b$`, not as `^(a|b)$`), so only alternation inside a group — which
the anchors do enclose — is modelled. -/
def compilePattern (pattern : String) : Option JsRe :=
  match parseRegex (4 * (jsRewrite pattern.data).length + 4) .sequence
      (jsRewrite pattern.data) with
  | some (r, []) => some r
  | _ => none

/-- `PermissionController.matchPattern`: the value tested against the
anchored compiled pattern. -/
def matchPattern (pattern : String) (value : String) : Bool :=
  match compilePattern pattern with
  | some r => reMatchList r value.data
  | none => false

/-- The patterns whose compiled regex the embedding models. -/
def patternSupported (pattern : String) : Bool :=
  (compilePattern pattern).isSome

/-- Right-nested concatenation of literal characters in front of a
continuation regex: the compiled form of a metacharacter-free
pattern. -/
def reLits : List Char → JsRe → JsRe
  | [], k => k
  | c :: l, k => .seq (litRe c) (reLits l k)

/-! ### Permission strategies (`strategies`, `BasePermissionStrategy` and
its five subclasses) -/

/-- The `resource` field of `PermissionContext`. -/
structure Resource where
  type : ResourceType
  id : String
deriving DecidableEq, Repr

/-- `PermissionContext` from `types/index.ts`.  The runtime code guards
`!context.userRole || !context.userRole.currentRole`, so `userRole` is
modelled as optional. -/
structure PermissionContext where
  userRole : Option UserRoleInfo
  resource : Option Resource
  action : Option PermissionAction
deriving DecidableEq, Repr

/-- `PermissionCheckResult` from `types/index.ts` (without the unused
`metadata`). -/
structure PermissionCheckResult where
  hasPermission : Bool
  action : AccessControlAction
  message : Option String
  redirectUrl : Option String
deriving DecidableEq, Repr

/-- `BasePermissionStrategy.preCheck`: the base implementation, not
overridden by any concrete strategy; always grants. -/
def strategyPreCheck (_context : PermissionContext) : PermissionCheckResult :=
  ⟨true, .unrestrictedAccess, none, none⟩

/-- The `doCheckPermission` override of each concrete strategy class
(`GuestPermissionStrategy`, `RegularUserPermissionStrategy`,
`ChannelUserPermissionStrategy`, `InstitutionalUserPermissionStrategy`,
`AdminPermissionStrategy`). -/
def strategyDoCheckPermission (role : UserRole)
    (context : PermissionContext) : PermissionCheckResult :=
  match role with
  | .guest =>
      if context.action == some .view
          && (context.resource.map (fun r => r.type)) == some .content then
        ⟨true, .readOnly, some "游客只能查看内容，无法进行其他操作", none⟩
      else
        ⟨false, .loginGuidance, some "请先登录以获取更多权限", some "/pages/login/login"⟩
  | .regular =>
      if (context.resource.map (fun r => r.type)) == some .content
          && [some PermissionAction.view, some PermissionAction.share,
              some PermissionAction.favorite, some PermissionAction.comment].contains
              context.action then
        ⟨true, .unrestrictedAccess, some "普通用户可以查看、分享、收藏和评论内容", none⟩
      else
        ⟨false, .roleSwitchGuidance, some "该操作需要更高权限，请切换到相应角色", some "/pages/role/switch"⟩
  | .channel =>
      if (context.resource.map (fun r => r.type)) == some .content
          && [some PermissionAction.view, some PermissionAction.share,
              some PermissionAction.favorite, some PermissionAction.comment,
              some PermissionAction.download, some PermissionAction.create].contains
              context.action then
        ⟨true, .unrestrictedAccess, some "渠道用户拥有内容的完整操作权限", none⟩
      else if context.action == some .delete || context.action == some .edit then
        ⟨false, .roleSwitchGuidance, some "管理操作需要机构用户或管理员权限", some "/pages/role/switch"⟩
      else
        ⟨true, .unrestrictedAccess, none, none⟩
  | .institutional =>
      if (context.resource.map (fun r => r.type)) == some .content then
        ⟨true, .unrestrictedAccess, some "机构用户拥有所有内容操作权限", none⟩
      else if (context.resource.map (fun r => r.type)) == some .module
          && context.action == some .edit then
        ⟨false, .roleSwitchGuidance, some "系统管理需要管理员权限", some "/pages/role/switch"⟩
      else
        ⟨true, .unrestrictedAccess, none, none⟩
  | .admin =>
      ⟨true, .unrestrictedAccess, some "管理员拥有系统所有权限", none⟩

/-- `BasePermissionStrategy.postCheck`: base implementation, not
overridden; the identity. -/
def strategyPostCheck (_context : PermissionContext)
    (result : PermissionCheckResult) : PermissionCheckResult :=
  result

/-- `BasePermissionStrategy.checkPermission`, the template method:
pre-check, then the role's `doCheckPermission` (short-circuiting on
denial), then post-check.  `PermissionStrategyFactory.getStrategy`
dispatches on the role kind, which here is the `role` argument. -/
def strategyCheckPermission (role : UserRole)
    (context : PermissionContext) : PermissionCheckResult :=
  let pre := strategyPreCheck context
  if !pre.hasPermission then pre
  else
    let result := strategyDoCheckPermission role context
    if !result.hasPermission then result
    else strategyPostCheck context result

/-! ### Rule registry and evaluation (`PermissionController.ts`) -/

/-- `PermissionRule` from `PermissionController.ts`; `conditions` is an
optional predicate over a `PermissionContext`. -/
structure PermissionRule where
  id : String
  resourceType : ResourceType
  resourcePattern : String
  requiredRoles : List UserRole
  requiredActions : List PermissionAction
  conditions : Option (PermissionContext → Bool)
  priority : Int

/-- The string of each `ResourceType` enum member. -/
def resourceTypeStr : ResourceType → String
  | .page => "page"
  | .component => "component"
  | .api => "api"
  | .content => "content"
  | .module => "module"

/-- The string of each `UserRole` enum member. -/
def userRoleStr : UserRole → String
  | .guest => "guest"
  | .regular => "regular"
  | .channel => "channel"
  | .institutional => "institutional"
  | .admin => "admin"

/-- The `permissionRules` map: resource key (built as
`resourceType + ":" + resourcePattern`) to the rules registered under
it, in `Map` insertion order. -/
abbrev RuleRegistry : Type := List (String × List PermissionRule)

/-- Stable insertion into a list already sorted by descending
`priority`: the new rule goes after every rule of greater or equal
priority. -/
def insertByPriorityDesc (rule : PermissionRule) :
    List PermissionRule → List PermissionRule
  | [] => [rule]
  | r :: rs =>
      if rule.priority > r.priority then rule :: r :: rs
      else r :: insertByPriorityDesc rule rs

/-- Descending sort by `priority`, as `rules.sort((a, b) => b.priority - a.priority)`
(a stable sort, as JavaScript engines implement `Array.prototype.sort`;
realised as a stable insertion sort so that it evaluates by kernel
reduction). -/
def sortByPriorityDesc (rules : List PermissionRule) : List PermissionRule :=
  rules.foldl (fun acc r => insertByPriorityDesc r acc) []

/-- `PermissionController.registerPermissionRule`: group under the
resource key, append, and re-sort the group by descending priority. -/
def registerPermissionRule (reg : RuleRegistry) (rule : PermissionRule) :
    RuleRegistry :=
  let resourceKey := resourceTypeStr rule.resourceType ++ ":" ++ rule.resourcePattern
  match mapGet reg resourceKey with
  | none => mapSet reg resourceKey (sortByPriorityDesc [rule])
  | some rules => mapSet reg resourceKey (sortByPriorityDesc (rules ++ [rule]))

/-- JavaScript `key.split(':')` on the character list: cut at every
colon, keeping empty segments. -/
def jsSplitColonAux : List Char → List Char → List (List Char)
  | [], acc => [acc.reverse]
  | c :: rest, acc =>
      if c == ':' then acc.reverse :: jsSplitColonAux rest []
      else jsSplitColonAux rest (c :: acc)

/-- JavaScript `key.split(':')`. -/
def jsSplitColon (s : String) : List String :=
  (jsSplitColonAux s.data []).map (fun cs => ⟨cs⟩)

/-- `PermissionController.findMatchingRules`: for each registry entry,
split the key on `":"` (destructuring takes the first two parts, so a
pattern containing a colon is truncated at it), keep the groups whose
type part equals the requested resource type and whose pattern part
matches the resource id, and sort the concatenation by descending
priority. -/
def findMatchingRules (reg : RuleRegistry) (resourceType : ResourceType)
    (resourceId : String) : List PermissionRule :=
  let matching := reg.foldr
    (fun kv acc =>
      let parts := jsSplitColon kv.1
      let ruleResourceType := parts.getD 0 ""
      let pattern := parts.getD 1 ""
      if ruleResourceType == resourceTypeStr resourceType
          && matchPattern pattern resourceId then
        kv.2 ++ acc
      else acc)
    []
  sortByPriorityDesc matching

/-- The synthetic `PermissionContext` that `checkPermissionRules` builds
when evaluating a rule's `conditions` predicate: the current role's
`id`, `type` and `name` all carry the role's enum string, the user id is
the string `current` and no other role is listed.  (The source's object
literal omits the optional `lastUpdated`; the embedding's mandatory
field is `0`.) -/
def syntheticContext (role : UserRole) (resourceType : ResourceType)
    (resourceId : String) (action : PermissionAction) : PermissionContext :=
  { userRole := some
      { userId := "current"
        currentRole :=
          { id := userRoleStr role, type := role, name := userRoleStr role
            permissions := [], status := .active }
        availableRoles := []
        lastUpdated := 0 }
    resource := some { type := resourceType, id := resourceId }
    action := some action }

/-- The loop body of `PermissionController.checkPermissionRules`: the
first matching rule whose role set, action set and optional condition
all pass grants access; exhaustion denies with complete restriction. -/
def checkRulesLoop (role : UserRole) (resourceType : ResourceType)
    (resourceId : String) (action : PermissionAction) :
    List PermissionRule → PermissionCheckResult
  | [] => ⟨false, .completeRestriction, some "没有匹配的权限规则", none⟩
  | rule :: rest =>
      if !(rule.requiredRoles.contains role) then
        checkRulesLoop role resourceType resourceId action rest
      else if !(rule.requiredActions.contains action) then
        checkRulesLoop role resourceType resourceId action rest
      else
        match rule.conditions with
        | some cond =>
            if !(cond (syntheticContext role resourceType resourceId action)) then
              checkRulesLoop role resourceType resourceId action rest
            else
              ⟨true, .unrestrictedAccess, some ("权限规则 " ++ rule.id ++ " 匹配"), none⟩
        | none =>
            ⟨true, .unrestrictedAccess, some ("权限规则 " ++ rule.id ++ " 匹配"), none⟩

/-- `PermissionController.checkPermissionRules`. -/
def checkPermissionRules (reg : RuleRegistry) (role : UserRole)
    (resourceType : ResourceType) (resourceId : String)
    (action : PermissionAction) : PermissionCheckResult :=
  checkRulesLoop role resourceType resourceId action
    (findMatchingRules reg resourceType resourceId)

/-- `PermissionController.doCheckPermission`, the core evaluation:
no current role short-circuits to login guidance; the role's strategy
denial is returned as-is; otherwise, when the request carries a resource
and an action, the rule registry decides; a granted check returns
unrestricted access. -/
def doCheckPermission (reg : RuleRegistry) (context : PermissionContext) :
    PermissionCheckResult :=
  match context.userRole with
  | none =>
      ⟨false, .loginGuidance, some "用户未登录", some "/pages/login/login"⟩
  | some userRole =>
      let currentRole := userRole.currentRole.type
      let strategyResult := strategyCheckPermission currentRole context
      if !strategyResult.hasPermission then strategyResult
      else
        match context.resource, context.action with
        | some resource, some action =>
            let ruleCheckResult :=
              checkPermissionRules reg currentRole resource.type resource.id action
            if !ruleCheckResult.hasPermission then ruleCheckResult
            else ⟨true, .unrestrictedAccess, some "权限检查通过", none⟩
        | _, _ => ⟨true, .unrestrictedAccess, some "权限检查通过", none⟩

/-- `PermissionController.initializeDefaultRules`: the four rules the
constructor registers, in order. -/
def defaultRegistry : RuleRegistry :=
  let r1 : PermissionRule :=
    { id := "page_login_access", resourceType := .page
      resourcePattern := "/pages/login/*", requiredRoles := [.guest]
      requiredActions := [.view], conditions := none, priority := 1 }
  let r2 : PermissionRule :=
    { id := "page_admin_access", resourceType := .page
      resourcePattern := "/pages/admin/*", requiredRoles := [.admin]
      requiredActions := [.view], conditions := none, priority := 10 }
  let r3 : PermissionRule :=
    { id := "api_user_management", resourceType := .api
      resourcePattern := "/api/users/*", requiredRoles := [.admin, .institutional]
      requiredActions := [.view, .edit], conditions := none, priority := 5 }
  let r4 : PermissionRule :=
    { id := "content_premium_access", resourceType := .content
      resourcePattern := "premium_*", requiredRoles := [.channel, .institutional, .admin]
      requiredActions := [.view], conditions := none, priority := 3 }
  registerPermissionRule
    (registerPermissionRule (registerPermissionRule (registerPermissionRule [] r1) r2) r3) r4

/-! ### Role state manager state and operations (`RoleStateManager.ts`) -/

/-- The mutable state of a `RoleStateManager`: `currentStates` maps a
principal to its current `IRoleState` object, identified here by the
role kind it was registered under in `initializeStates`; `userRoleInfo`
and `switchHistory` are the other two per-principal maps.  (`states` is
the fixed five-entry table and needs no state.) -/
structure RoleStateManager where
  currentStates : List (String × UserRole)
  userRoleInfo : List (String × UserRoleInfo)
  switchHistory : List (String × List RoleSwitchRecord)
deriving DecidableEq, Repr

/-- Whether the `exit`/`enter` hook of a role's state object throws when
run.  The hooks only touch device storage (`uni.setStorageSync` and the
like), which is outside the engine's state; only their success or
failure is observable to the state machine. -/
structure EffectOracle where
  exitFails : UserRole → Bool
  enterFails : UserRole → Bool

/-- The distinct `throw` sites of `RoleStateManager.switchRole` and
`RoleSwitchService.performRoleSwitch` (plus the two hook failures),
standing for the `Error` messages thrown there. -/
inductive SwitchError where
  /-- manager: `用户角色信息不存在` -/
  | roleInfoMissing
  /-- manager: `状态不存在` -/
  | stateMissing
  /-- manager: `不允许的角色切换` -/
  | illegalSwitch
  /-- manager: `当前状态不允许切换到目标角色` -/
  | handleSwitchRefused
  /-- manager: the current state's `exit` hook threw -/
  | exitFailed
  /-- manager: `目标角色不在可用角色列表中` -/
  | targetNotAvailable
  /-- manager: the target state's `enter` hook threw -/
  | enterFailed
  /-- coordinator: `用户角色信息不存在` -/
  | coordRoleInfoMissing
  /-- coordinator: `不允许从 X 切换到 Y` -/
  | coordIllegalSwitch
  /-- coordinator: `目标角色 X 不在用户可用角色列表中` -/
  | coordTargetNotAvailable
  /-- coordinator, via `checkBusinessRules`: `角色切换过于频繁，请稍后再试` -/
  | rateLimited
deriving DecidableEq, Repr

/-- `RoleStateManager.switchRole`.  Returns the boolean result, the
manager state after the call, and the error passed to `options.onError`
when the `try` block threw (the callbacks themselves are invoked by the
caller's wiring and are modelled at the call site).  Faithful ordering
of the source: legality and `handleSwitch` checks, then `exit` on the
current state, then the lookup of the target `Role` object, then the
`currentRole` assignment, then `enter`, then `currentStates` update and
the history record.  The success record's `fromRole` field reads
`currentRoleInfo.currentRole.type` after `currentRole` has already been
reassigned, so it stores the target role's kind. -/
def RoleStateManager.switchRole (oracle : EffectOracle)
    (m : RoleStateManager) (userId : String) (options : RoleSwitchOptions)
    (now : Nat) : Bool × RoleStateManager × Option SwitchError :=
  match mapGet m.userRoleInfo userId with
  | none => (false, m, some .roleInfoMissing)
  | some currentRoleInfo =>
    match mapGet m.currentStates userId with
    | none => (false, m, some .stateMissing)
    | some currentState =>
      if !(validateRoleSwitch currentRoleInfo.currentRole.type options.targetRole) then
        (false, m, some .illegalSwitch)
      else if !(handleSwitch currentState options.targetRole) then
        (false, m, some .handleSwitchRefused)
      else if oracle.exitFails currentState then
        (false, m, some .exitFailed)
      else
        match currentRoleInfo.availableRoles.find?
            (fun role => role.type == options.targetRole) with
        | none => (false, m, some .targetNotAvailable)
        | some targetRole =>
          let updatedInfo := { currentRoleInfo with currentRole := targetRole }
          let m1 := { m with userRoleInfo := mapSet m.userRoleInfo userId updatedInfo }
          if oracle.enterFails options.targetRole then
            (false, m1, some .enterFailed)
          else
            let m2 := { m1 with currentStates := mapSet m1.currentStates userId options.targetRole }
            let m3 :=
              if options.saveHistory then
                let record : RoleSwitchRecord :=
                  { id := "switch_" ++ toString now
                    fromRole := updatedInfo.currentRole.type
                    toRole := options.targetRole
                    switchTime := now
                    reason := options.reason
                    success := true }
                let newHistory :=
                  recordRoleSwitch ((mapGet m2.switchHistory userId).getD []) record
                { m2 with switchHistory := mapSet m2.switchHistory userId newHistory }
              else m2
            (true, m3, none)

/-- `RoleStateManager.addUserRole`.  For a new principal the info and the
initial state are installed before the initial `enter` hook runs, so a
throwing hook still leaves them installed (the `catch` only returns
`false`). -/
def RoleStateManager.addUserRole (oracle : EffectOracle)
    (m : RoleStateManager) (userId : String) (role : Role) (now : Nat) :
    Bool × RoleStateManager :=
  match mapGet m.userRoleInfo userId with
  | none =>
      let roleInfo : UserRoleInfo :=
        { userId := userId, currentRole := role, availableRoles := [role]
          lastUpdated := now }
      let m1 := { m with userRoleInfo := mapSet m.userRoleInfo userId roleInfo }
      let m2 := { m1 with currentStates := mapSet m1.currentStates userId role.type }
      if oracle.enterFails role.type then (false, m2) else (true, m2)
  | some roleInfo =>
      match roleInfo.availableRoles.find? (fun r => r.type == role.type) with
      | some _ => (true, m)
      | none =>
          let updated := { roleInfo with
            availableRoles := roleInfo.availableRoles ++ [role]
            lastUpdated := now }
          (true, { m with userRoleInfo := mapSet m.userRoleInfo userId updated })

/-- `RoleStateManager.removeUserRole`: refuses (throws, caught to
`false`) to remove the currently active role; otherwise filters it out
of `availableRoles`. -/
def RoleStateManager.removeUserRole (m : RoleStateManager)
    (userId : String) (roleType : UserRole) (now : Nat) :
    Bool × RoleStateManager :=
  match mapGet m.userRoleInfo userId with
  | none => (false, m)
  | some roleInfo =>
      if roleInfo.currentRole.type == roleType then (false, m)
      else
        let updated := { roleInfo with
          availableRoles := roleInfo.availableRoles.filter
            (fun role => !(role.type == roleType))
          lastUpdated := now }
        (true, { m with userRoleInfo := mapSet m.userRoleInfo userId updated })

/-! ### Switch coordinator (`RoleSwitchService.performRoleSwitch`) -/

/-- `RoleSwitchEventType` from `RoleSwitchService.ts`. -/
inductive RoleSwitchEventType where
  | switchStart
  | switchSuccess
  | switchFailed
  | switchCancelled
  | permissionsUpdated
deriving DecidableEq, Repr

/-- A `RoleSwitchEvent` as delivered to the registered listeners (the
fields the coordinator fills; `timestamp`/`data` payloads carry no
engine state and are omitted). -/
structure RoleSwitchEvent where
  type : RoleSwitchEventType
  fromRole : Option UserRole
  toRole : Option UserRole
  error : Option SwitchError
deriving DecidableEq, Repr

/-- `RoleSwitchService.checkBusinessRules`: fetch the 5 most recent
history records, count those within the last 60 seconds, and reject
with the rate-limit message when 3 or more are found.
(`checkUserStatus` and `checkRoleStatus` always pass.) -/
def checkBusinessRules (m : RoleStateManager) (userId : String)
    (now : Nat) : Bool :=
  let switchHistory := getRoleSwitchHistory ((mapGet m.switchHistory userId).getD []) 5
  let recentSwitches := switchHistory.filter (fun record => now - record.switchTime < 60000)
  ¬ (recentSwitches.length ≥ 3) |> decide

/-- The `switch_start` event `performRoleSwitch` emits. -/
def switchStartEvent (fromRole toRole : UserRole) : RoleSwitchEvent :=
  { type := RoleSwitchEventType.switchStart, fromRole := some fromRole
    toRole := some toRole, error := none }

/-- A `switch_failed` event as `performRoleSwitch` emits it (either from
its `catch` block or through the `onError` callback). -/
def switchFailedEvent (fromRole toRole : UserRole) (err : Option SwitchError) :
    RoleSwitchEvent :=
  { type := RoleSwitchEventType.switchFailed, fromRole := some fromRole
    toRole := some toRole, error := err }

/-- `RoleSwitchService.performRoleSwitch`.  Returns the boolean result,
the manager state after the call, and the events emitted to listeners,
in order.  Every `throw` inside the `try` lands in the `catch`, which
emits a `switch_failed` event and returns `false`; a failure inside
`roleStateManager.switchRole` is surfaced through the `onError`
callback, which emits the same event.  On success the `onSuccess`
callback emits `switch_success` and `permissions_updated` (the
post-switch processing touches only device storage). -/
def performRoleSwitch (oracle : EffectOracle) (m : RoleStateManager)
    (userId : String) (options : RoleSwitchOptions) (now : Nat) :
    Bool × RoleStateManager × List RoleSwitchEvent :=
  match mapGet m.userRoleInfo userId with
  | none =>
      (false, m, [{ type := RoleSwitchEventType.switchFailed, fromRole := none
                    toRole := some options.targetRole
                    error := some SwitchError.coordRoleInfoMissing }])
  | some currentRoleInfo =>
      if !(validateRoleSwitch currentRoleInfo.currentRole.type options.targetRole) then
        (false, m,
          [switchStartEvent currentRoleInfo.currentRole.type options.targetRole,
           switchFailedEvent currentRoleInfo.currentRole.type options.targetRole
             (some SwitchError.coordIllegalSwitch)])
      else if (currentRoleInfo.availableRoles.find?
          (fun role => role.type == options.targetRole)).isNone then
        (false, m,
          [switchStartEvent currentRoleInfo.currentRole.type options.targetRole,
           switchFailedEvent currentRoleInfo.currentRole.type options.targetRole
             (some SwitchError.coordTargetNotAvailable)])
      else if !(checkBusinessRules m userId now) then
        (false, m,
          [switchStartEvent currentRoleInfo.currentRole.type options.targetRole,
           switchFailedEvent currentRoleInfo.currentRole.type options.targetRole
             (some SwitchError.rateLimited)])
      else
        match RoleStateManager.switchRole oracle m userId options now with
        | (true, m1, _) =>
            (true, m1,
              [switchStartEvent currentRoleInfo.currentRole.type options.targetRole,
               { type := RoleSwitchEventType.switchSuccess
                 fromRole := some currentRoleInfo.currentRole.type
                 toRole := some options.targetRole, error := none },
               { type := RoleSwitchEventType.permissionsUpdated, fromRole := none
                 toRole := some options.targetRole, error := none }])
        | (false, m1, err) =>
            (false, m1,
              [switchStartEvent currentRoleInfo.currentRole.type options.targetRole,
               switchFailedEvent currentRoleInfo.currentRole.type options.targetRole err])

/-! ### Single-flight entry (`RoleSwitchService.switchRole` queue/locks) -/

/-- The per-principal coordination state of a `RoleSwitchService`:
`switchLocks` holds the keys with a switch in flight, `switchQueue` the
keys with a pending switch promise (its result is not needed to decide
the entry behaviour). -/
structure CoordinationState where
  switchLocks : List String
  switchQueue : List String
deriving DecidableEq, Repr

/-- What the synchronous prefix of `RoleSwitchService.switchRole`
decides for a caller. -/
inductive SwitchEntryOutcome where
  /-- the lock is held: log a warning and return `false` immediately -/
  | rejectedBusy
  /-- a queued switch exists: return the in-flight promise (request
  coalescing) -/
  | coalesced
  /-- start a new switch -/
  | started
deriving DecidableEq, Repr

/-- The synchronous prefix of `RoleSwitchService.switchRole`: check the
lock, check the queue, otherwise call `performRoleSwitch` — whose own
synchronous prefix adds the lock before its first `await` — and then
put the promise in the queue.  The JavaScript event loop runs this
prefix atomically, so it is a single step on `CoordinationState`. -/
def switchRoleEntry (s : CoordinationState) (userKey : String) :
    SwitchEntryOutcome × CoordinationState :=
  if s.switchLocks.contains userKey then (.rejectedBusy, s)
  else if s.switchQueue.contains userKey then (.coalesced, s)
  else
    (.started,
      { switchLocks := s.switchLocks ++ [userKey]
        switchQueue := s.switchQueue ++ [userKey] })

/-- The `finally` block of `RoleSwitchService.switchRole`: the in-flight
switch settled, so its queue entry and lock are removed. -/
def switchSettle (s : CoordinationState) (userKey : String) :
    CoordinationState :=
  { switchLocks := s.switchLocks.filter (fun k => !(k == userKey))
    switchQueue := s.switchQueue.filter (fun k => !(k == userKey)) }

/-- `RoleSwitchService.cancelRoleSwitch`: when the lock is held, emit a
cancel event and drop both the lock and the queue entry. -/
def cancelRoleSwitch (s : CoordinationState) (userKey : String) :
    Bool × CoordinationState :=
  if s.switchLocks.contains userKey then (true, switchSettle s userKey)
  else (false, s)

/-- The coordination states a `RoleSwitchService` can reach: it starts
with both maps empty, and evolves by call entries, settlements and
cancellations. -/
inductive ReachableCoordination : CoordinationState → Prop where
  | init : ReachableCoordination ⟨[], []⟩
  | entry {s : CoordinationState} (k : String) :
      ReachableCoordination s → ReachableCoordination (switchRoleEntry s k).2
  | settle {s : CoordinationState} (k : String) :
      ReachableCoordination s → ReachableCoordination (switchSettle s k)
  | cancel {s : CoordinationState} (k : String) :
      ReachableCoordination s → ReachableCoordination (cancelRoleSwitch s k).2

/-! ### Two-tier permission cache (`PermissionCacheManager`) -/

/-- `CacheEntry<T>` from `PermissionCacheManager`. -/
structure CacheEntry (α : Type) where
  value : α
  createdAt : Nat
  expiresAt : Nat
  accessCount : Nat
  lastAccessAt : Nat
deriving DecidableEq, Repr

/-- The `CacheConfig` fields the cache operations read (preload fields
drive only a background logger). -/
structure CacheConfig where
  maxMemoryEntries : Nat
  memoryTtl : Nat
  persistentTtl : Nat
  keyPrefix : String
deriving DecidableEq, Repr

/-- The constructor defaults of `PermissionCacheManager`. -/
def defaultCacheConfig : CacheConfig :=
  { maxMemoryEntries := 1000
    memoryTtl := 300000
    persistentTtl := 1800000
    keyPrefix := "permission_cache_" }

/-- The state of a `PermissionCacheManager`: the in-process `memoryCache`
map and the `uni` storage entries the persistent tier keeps (each stored
as a JSON-serialised `CacheEntry`; serialisation round-trips, so we keep
the entry).  The hit/miss statistics do not influence any cache
answer and are omitted. -/
structure CacheState (α : Type) where
  memoryCache : List (String × CacheEntry α)
  persistent : List (String × CacheEntry α)
deriving Repr

/-- `PermissionCacheManager.isExpired`: strictly past `expiresAt`. -/
def isExpired {α : Type} (now : Nat) (entry : CacheEntry α) : Bool :=
  now > entry.expiresAt

/-- `PermissionCacheManager.evictLeastRecentlyUsed`, the key it picks:
scan the map in insertion order keeping the entry with the strictly
smallest `lastAccessAt`, starting from `lruTime = Date.now()`; when every
entry's `lastAccessAt` is at least `now`, nothing is evicted. -/
def evictLRUKey {α : Type} (memory : List (String × CacheEntry α))
    (now : Nat) : Option String :=
  (memory.foldl
    (fun acc kv =>
      if kv.2.lastAccessAt < acc.2 then (some kv.1, kv.2.lastAccessAt) else acc)
    ((none : Option String), now)).1

/-- `PermissionCacheManager.setMemoryCache`: evict the LRU entry when at
capacity, then store a fresh entry expiring at `now + ttl`. -/
def setMemoryCache {α : Type} (config : CacheConfig)
    (memory : List (String × CacheEntry α)) (key : String) (value : α)
    (ttl : Nat) (now : Nat) : List (String × CacheEntry α) :=
  mapSet
    (if memory.length ≥ config.maxMemoryEntries then
      match evictLRUKey memory now with
      | some lruKey => mapDelete memory lruKey
      | none => memory
    else memory)
    key
    { value := value, createdAt := now, expiresAt := now + ttl
      accessCount := 1, lastAccessAt := now }

/-- The persistent-tier fall-through of `PermissionCacheManager.get`
(steps 2–3 of the method, reached when the memory tier missed or held an
expired entry): a fresh `getPersistentCache` hit is promoted into the
memory tier with the memory TTL; an expired persistent entry is removed
(`uni.removeStorageSync`); otherwise the call is a miss. -/
def cacheGetSlow {α : Type} (config : CacheConfig) (σ : CacheState α)
    (fullKey : String) (now : Nat) : Option α × CacheState α :=
  match mapGet σ.persistent fullKey with
  | some persistentEntry =>
      if !(isExpired now persistentEntry) then
        (some persistentEntry.value,
          { σ with memoryCache := setMemoryCache config σ.memoryCache fullKey persistentEntry.value config.memoryTtl now })
      else
        (none, { σ with persistent := mapDelete σ.persistent fullKey })
  | none => (none, σ)

/-- `PermissionCacheManager.get`: memory tier first (a fresh hit bumps
the access info), then the persistent tier via `cacheGetSlow`. -/
def cacheGet {α : Type} (config : CacheConfig) (σ : CacheState α)
    (key : String) (now : Nat) : Option α × CacheState α :=
  match mapGet σ.memoryCache (config.keyPrefix ++ key) with
  | some memoryEntry =>
      if !(isExpired now memoryEntry) then
        (some memoryEntry.value,
          { σ with memoryCache := mapSet σ.memoryCache (config.keyPrefix ++ key) { memoryEntry with accessCount := memoryEntry.accessCount + 1, lastAccessAt := now } })
      else
        cacheGetSlow config σ (config.keyPrefix ++ key) now
  | none => cacheGetSlow config σ (config.keyPrefix ++ key) now

/-- `PermissionCacheManager.set`: `ttl || this.config.memoryTtl` and
`ttl || this.config.persistentTtl` — a 0 (or omitted, equally falsy)
`ttl` falls back to the configured defaults; both tiers are written. -/
def cacheSet {α : Type} (config : CacheConfig) (σ : CacheState α)
    (key : String) (value : α) (ttl : Nat) (now : Nat) : CacheState α :=
  { memoryCache := setMemoryCache config σ.memoryCache (config.keyPrefix ++ key) value (if ttl == 0 then config.memoryTtl else ttl) now
    persistent := mapSet σ.persistent (config.keyPrefix ++ key)
      { value := value, createdAt := now
        expiresAt := now + (if ttl == 0 then config.persistentTtl else ttl)
        accessCount := 1, lastAccessAt := now } }

/-- `PermissionCacheManager.delete`: drop the key from both tiers. -/
def cacheDelete {α : Type} (config : CacheConfig) (σ : CacheState α)
    (key : String) : CacheState α :=
  { memoryCache := mapDelete σ.memoryCache (config.keyPrefix ++ key)
    persistent := mapDelete σ.persistent (config.keyPrefix ++ key) }

/-- `PermissionCacheManager.clear`: empty the memory tier and remove all
prefixed persistent keys (every key the manager writes is prefixed). -/
def cacheClear {α : Type} (config : CacheConfig) (σ : CacheState α) :
    CacheState α :=
  { memoryCache := []
    persistent := σ.persistent.filter
      (fun kv => !(config.keyPrefix.isPrefixOf kv.1)) }

/-- One public cache-tier operation together with the clock value at
which it runs. -/
inductive CacheOp (α : Type) where
  | set (key : String) (value : α) (ttl : Nat)
  | get (key : String)
  | del (key : String)
  | clear
deriving Repr

/-- Running one operation against the cache state. -/
def cacheStep {α : Type} (config : CacheConfig) (σ : CacheState α) :
    CacheOp α → Nat → CacheState α
  | .set key value ttl, now => cacheSet config σ key value ttl now
  | .get key, now => (cacheGet config σ key now).2
  | .del key, _ => cacheDelete config σ key
  | .clear, _ => cacheClear config σ

/-- Running a timed operation sequence. -/
def cacheRun {α : Type} (config : CacheConfig) (σ : CacheState α) :
    List (CacheOp α × Nat) → CacheState α
  | [] => σ
  | (op, now) :: rest => cacheRun config (cacheStep config σ op now) rest

/-- The key (if any) that a step's LRU eviction removes from the memory
tier: `set` evicts when at capacity, and so does a `get` that promotes a
fresh persistent entry after a memory miss or expiry. -/
def stepEvictedKey {α : Type} (config : CacheConfig) (σ : CacheState α) :
    CacheOp α → Nat → Option String
  | .set _ _ _, now =>
      if σ.memoryCache.length ≥ config.maxMemoryEntries then
        evictLRUKey σ.memoryCache now
      else none
  | .get key, now =>
      if ((match mapGet σ.memoryCache (config.keyPrefix ++ key) with
          | some memoryEntry => isExpired now memoryEntry
          | none => true)
        && (match mapGet σ.persistent (config.keyPrefix ++ key) with
          | some persistentEntry => !(isExpired now persistentEntry)
          | none => false))
        && decide (σ.memoryCache.length ≥ config.maxMemoryEntries) then
        evictLRUKey σ.memoryCache now
      else none
  | .del _, _ => none
  | .clear, _ => none

/-- The operations the cache-correctness claim allows between the `Set`
of key `k` and the later `Get`: anything except a `Delete`/`Clear`
touching `k` or another write to `k`. -/
def allowedBetween {α : Type} (k : String) : CacheOp α → Prop
  | .set key _ _ => key ≠ k
  | .get _ => True
  | .del key => key ≠ k
  | .clear => False

/-- `allowedBetween` holds along a run and no step of it evicts `k`'s
full key from the memory tier. -/
def nonInterfering {α : Type} (config : CacheConfig) (k : String) :
    CacheState α → List (CacheOp α × Nat) → Prop
  | _, [] => True
  | σ, (op, now) :: rest =>
      allowedBetween k op ∧
      stepEvictedKey config σ op now ≠ some (config.keyPrefix ++ k) ∧
      nonInterfering config k (cacheStep config σ op now) rest

/-- The shape `Set(k, v, ttl)` leaves behind for `k`, as preserved by
non-interfering operations: the memory tier holds an entry for `k`'s
full key with value `v` and the written expiry (its access statistics
may drift), and the persistent tier either still holds such an entry or
has dropped it (which `get` does once the entry is expired). -/
def goodCacheState {α : Type} (config : CacheConfig) (k : String) (v : α)
    (expiry : Nat) (σ : CacheState α) : Prop :=
  (∃ e, mapGet σ.memoryCache (config.keyPrefix ++ k) = some e ∧
    e.value = v ∧ e.expiresAt = expiry) ∧
  ((∃ e, mapGet σ.persistent (config.keyPrefix ++ k) = some e ∧
    e.value = v ∧ e.expiresAt = expiry) ∨
   mapGet σ.persistent (config.keyPrefix ++ k) = none)

/-- The invariant of the `PrincipalRoleInfo` data model: every stored
principal's current role is an element of its available-roles list. -/
def roleInvariant (m : RoleStateManager) : Prop :=
  ∀ p ∈ m.userRoleInfo, p.2.currentRole ∈ p.2.availableRoles

/-! ### Concrete sample values used by counterexamples and witnesses -/

/-- A concrete active `regular` role object. -/
def sampleRegularRole : Role :=
  { id := "r1", type := UserRole.regular, name := "regular"
    permissions := [], status := RoleStatus.active }

/-- A concrete active `channel` role object. -/
def sampleChannelRole : Role :=
  { id := "c1", type := UserRole.channel, name := "channel"
    permissions := [], status := RoleStatus.active }

/-- A concrete active `guest` role object. -/
def sampleGuestRole : Role :=
  { id := "g1", type := UserRole.guest, name := "guest"
    permissions := [], status := RoleStatus.active }

/-- A principal holding `regular` (current) and `channel`. -/
def sampleInfo : UserRoleInfo :=
  { userId := "u", currentRole := sampleRegularRole
    availableRoles := [sampleRegularRole, sampleChannelRole], lastUpdated := 0 }

/-- A one-principal manager state: current role `regular`, empty
history. -/
def sampleManager : RoleStateManager :=
  { currentStates := [("u", UserRole.regular)]
    userRoleInfo := [("u", sampleInfo)]
    switchHistory := [] }

/-- Hooks that never throw. -/
def noFailOracle : EffectOracle :=
  { exitFails := fun _ => false, enterFails := fun _ => false }

/-- Hooks where entering the `channel` state throws. -/
def enterChannelFailsOracle : EffectOracle :=
  { exitFails := fun _ => false, enterFails := fun r => r == UserRole.channel }

/-- Hooks where exiting the `regular` state throws. -/
def exitRegularFailsOracle : EffectOracle :=
  { exitFails := fun r => r == UserRole.regular, enterFails := fun _ => false }

/-! ## Theorems

First the helper lemmas about the JavaScript `Map` embedding, then one
theorem (plus witness/counterexample where required) per claim. -/

theorem find?_keyEq_cons {β : Type} (q : String × β) (l : List (String × β))
    (k : String) :
    (q :: l).find? (fun r => r.1 == k) =
      if q.1 == k then some q else l.find? (fun r => r.1 == k) := by
  rw [List.find?_cons]
  by_cases h : (q.1 == k) = true
  · simp only [h, if_pos]
  · simp only [Bool.not_eq_true] at h
    simp [h]

theorem find?_key_map_set {β : Type} (l : List (String × β)) (k : String)
    (v : β) (h : l.any (fun p => p.1 == k) = true) :
    (l.map (fun p => if p.1 == k then (k, v) else p)).find?
      (fun p => p.1 == k) = some (k, v) := by
  induction l with
  | nil => simp at h
  | cons p rest ih =>
      by_cases hp : (p.1 == k) = true
      · rw [List.map_cons, if_pos hp, find?_keyEq_cons, if_pos (by simp)]
      · rw [List.map_cons, if_neg hp, find?_keyEq_cons, if_neg hp]
        apply ih
        simpa [hp] using h

theorem find?_key_append_single {β : Type} (l : List (String × β))
    (k : String) (v : β) (h : ¬ l.any (fun p => p.1 == k) = true) :
    (l ++ [(k, v)]).find? (fun p => p.1 == k) = some (k, v) := by
  induction l with
  | nil => rw [List.nil_append, find?_keyEq_cons, if_pos (by simp)]
  | cons p rest ih =>
      simp only [List.any_cons, Bool.or_eq_true, not_or] at h
      rw [List.cons_append, find?_keyEq_cons, if_neg h.1]
      apply ih
      simp [h.2]

theorem mapGet_mapSet_self {β : Type} (l : List (String × β)) (k : String)
    (v : β) : mapGet (mapSet l k v) k = some v := by
  unfold mapGet mapSet
  by_cases hany : l.any (fun p => p.1 == k) = true
  · rw [if_pos hany, find?_key_map_set l k v hany]
    rfl
  · rw [if_neg hany, find?_key_append_single l k v hany]
    rfl

theorem find?_key_map_ne {β : Type} (l : List (String × β)) (k k' : String)
    (v : β) (hne : k' ≠ k) :
    (l.map (fun p => if p.1 == k then (k, v) else p)).find?
      (fun p => p.1 == k') = l.find? (fun p => p.1 == k') := by
  induction l with
  | nil => rfl
  | cons p rest ih =>
      by_cases hp : (p.1 == k) = true
      · have hpk : p.1 = k := eq_of_beq hp
        rw [List.map_cons, if_pos hp, find?_keyEq_cons, find?_keyEq_cons,
          if_neg (by simp [Ne.symm hne]), if_neg (by simp [hpk, Ne.symm hne]), ih]
      · rw [List.map_cons, if_neg hp, find?_keyEq_cons, find?_keyEq_cons]
        by_cases hp' : (p.1 == k') = true
        · rw [if_pos hp', if_pos hp']
        · rw [if_neg hp', if_neg hp', ih]

theorem find?_key_append_ne {β : Type} (l : List (String × β)) (k k' : String)
    (v : β) (hne : k' ≠ k) :
    (l ++ [(k, v)]).find? (fun p => p.1 == k') = l.find? (fun p => p.1 == k') := by
  induction l with
  | nil =>
      rw [List.nil_append, find?_keyEq_cons, if_neg (by simp [Ne.symm hne])]
  | cons p rest ih =>
      rw [List.cons_append, find?_keyEq_cons, find?_keyEq_cons]
      by_cases hp' : (p.1 == k') = true
      · rw [if_pos hp', if_pos hp']
      · rw [if_neg hp', if_neg hp', ih]

theorem mapGet_mapSet_ne {β : Type} (l : List (String × β)) (k k' : String)
    (v : β) (hne : k' ≠ k) : mapGet (mapSet l k v) k' = mapGet l k' := by
  unfold mapGet mapSet
  split
  · rw [find?_key_map_ne l k k' v hne]
  · rw [find?_key_append_ne l k k' v hne]

theorem mapGet_mapDelete_ne {β : Type} (l : List (String × β))
    (k k' : String) (hne : k' ≠ k) : mapGet (mapDelete l k) k' = mapGet l k' := by
  unfold mapGet mapDelete
  congr 1
  induction l with
  | nil => rfl
  | cons p rest ih =>
      by_cases hp : (p.1 == k) = true
      · have hpk : p.1 = k := eq_of_beq hp
        rw [List.filter_cons_of_neg (by simp [hp]), find?_keyEq_cons,
          if_neg (by simp [hpk, Ne.symm hne]), ih]
      · rw [List.filter_cons_of_pos (by simp [hp]), find?_keyEq_cons,
          find?_keyEq_cons]
        by_cases hp' : (p.1 == k') = true
        · rw [if_pos hp', if_pos hp']
        · rw [if_neg hp', if_neg hp', ih]

theorem mem_mapSet {β : Type} {l : List (String × β)} {k : String} {v : β}
    {p : String × β} (hp : p ∈ mapSet l k v) : p = (k, v) ∨ p ∈ l := by
  unfold mapSet at hp
  split at hp
  · rcases List.mem_map.1 hp with ⟨q, hq, rfl⟩
    by_cases h : (q.1 == k) = true
    · rw [if_pos h]
      exact Or.inl rfl
    · rw [if_neg h]
      exact Or.inr hq
  · rcases List.mem_append.1 hp with h | h
    · exact Or.inr h
    · exact Or.inl (by simpa using h)

theorem mapGet_mem {β : Type} {l : List (String × β)} {k : String} {v : β}
    (h : mapGet l k = some v) : ∃ p ∈ l, p.1 = k ∧ p.2 = v := by
  unfold mapGet at h
  rcases Option.map_eq_some'.1 h with ⟨p, hfind, hv⟩
  have hkey := List.find?_some hfind
  exact ⟨p, List.mem_of_find?_eq_some hfind, eq_of_beq hkey, hv⟩

theorem string_data_ext {s t : String} (h : s.data = t.data) : s = t := by
  cases s
  cases t
  simp only at h
  rw [h]

/-! ### Claim C2: the transition-legality table -/

/-- C2 counterexample.  The claim lists the legal transitions as
guest→regular, regular↔channel, regular↔institutional,
channel↔institutional, admin→any, any→admin-if-held, "for every other
(from, to) pair it returns false".  `regular → guest` is not in that
list, yet `RegularUserState.canSwitchTo` includes `GUEST` in its allowed
targets, so `validateRoleSwitch` returns `true` on it. -/
theorem C2_counterexample :
    validateRoleSwitch UserRole.regular UserRole.guest = true := by decide

/-- C2, amended: `validateRoleSwitch` is a pure function of the pair and
returns `true` exactly for guest→regular; regular→channel,
regular→institutional and additionally regular→guest;
channel→regular, channel→institutional; institutional→regular,
institutional→channel; and admin→any role (admin→admin included).  A
transition into admin is allowed only from admin itself, never on the
ground of a held admin role object (the function cannot see the
principal's roles). -/
theorem C2_transition_table (fromRole toRole : UserRole) :
    validateRoleSwitch fromRole toRole = true ↔
      (fromRole = UserRole.admin ∨
       (fromRole = UserRole.guest ∧ toRole = UserRole.regular) ∨
       (fromRole = UserRole.regular ∧
         (toRole = UserRole.channel ∨ toRole = UserRole.institutional ∨
          toRole = UserRole.guest)) ∨
       (fromRole = UserRole.channel ∧
         (toRole = UserRole.regular ∨ toRole = UserRole.institutional)) ∨
       (fromRole = UserRole.institutional ∧
         (toRole = UserRole.regular ∨ toRole = UserRole.channel))) := by
  cases fromRole <;> cases toRole <;> decide

/-! ### Claim C6: resource-id pattern matching -/

theorem emp_not_mem {v : List Char} (h : ReMem .emp v) : False := by
  cases h

theorem eps_mem_inv {v : List Char} (h : ReMem .eps v) : v = [] := by
  cases h
  rfl

theorem cls_mem_inv {neg : Bool} {rs : List (Char × Char)} {v : List Char}
    (h : ReMem (.cls neg rs) v) : ∃ c, v = [c] ∧ clsMem neg rs c = true := by
  cases h with
  | cls hc => exact ⟨_, rfl, hc⟩

theorem seq_mem_inv {a b : JsRe} {v : List Char} (h : ReMem (.seq a b) v) :
    ∃ x y, v = x ++ y ∧ ReMem a x ∧ ReMem b y := by
  cases h with
  | seq hx hy => exact ⟨_, _, rfl, hx, hy⟩

theorem alt_mem_inv {a b : JsRe} {v : List Char} (h : ReMem (.alt a b) v) :
    ReMem a v ∨ ReMem b v := by
  cases h with
  | altL h => exact Or.inl h
  | altR h => exact Or.inr h

theorem star_mem_inv {a : JsRe} {v : List Char} (h : ReMem (.star a) v) :
    v = [] ∨ ∃ c x y, v = c :: (x ++ y) ∧ ReMem a (c :: x) ∧ ReMem (.star a) y := by
  cases h with
  | starNil => exact Or.inl rfl
  | starCons hx hy => exact Or.inr ⟨_, _, _, rfl, hx, hy⟩

theorem reNullable_iff (r : JsRe) : reNullable r = true ↔ ReMem r [] := by
  induction r with
  | emp =>
      constructor
      · intro h; exact absurd h (by decide)
      · intro h; exact (emp_not_mem h).elim
  | eps =>
      constructor
      · intro _; exact ReMem.eps
      · intro _; rfl
  | cls neg rs =>
      constructor
      · intro h; simp only [reNullable] at h; cases h
      · intro h
        rcases cls_mem_inv h with ⟨c, hc, _⟩
        exact absurd hc (by simp)
  | seq a b iha ihb =>
      simp only [reNullable, Bool.and_eq_true, iha, ihb]
      constructor
      · rintro ⟨ha, hb⟩
        exact ReMem.seq ha hb
      · intro h
        rcases seq_mem_inv h with ⟨x, y, hxy, hx, hy⟩
        rcases List.append_eq_nil.mp hxy.symm with ⟨rfl, rfl⟩
        exact ⟨hx, hy⟩
  | alt a b iha ihb =>
      simp only [reNullable, Bool.or_eq_true, iha, ihb]
      constructor
      · rintro (h | h)
        · exact ReMem.altL h
        · exact ReMem.altR h
      · intro h
        exact alt_mem_inv h
  | star a _ =>
      constructor
      · intro _; exact ReMem.starNil
      · intro _; rfl

theorem reDeriv_iff (c : Char) (r : JsRe) :
    ∀ v : List Char, ReMem (reDeriv c r) v ↔ ReMem r (c :: v) := by
  induction r with
  | emp =>
      intro v
      constructor
      · intro h; exact (emp_not_mem h).elim
      · intro h; cases h
  | eps =>
      intro v
      constructor
      · intro h; exact (emp_not_mem h).elim
      · intro h; cases h
  | cls neg rs =>
      intro v
      simp only [reDeriv]
      by_cases hm : clsMem neg rs c = true
      · rw [if_pos hm]
        constructor
        · intro h
          rw [eps_mem_inv h]
          exact ReMem.cls hm
        · intro h
          rcases cls_mem_inv h with ⟨d, hd, _⟩
          injection hd with h1 h2
          rw [h2]
          exact ReMem.eps
      · rw [if_neg hm]
        constructor
        · intro h; exact (emp_not_mem h).elim
        · intro h
          rcases cls_mem_inv h with ⟨d, hd, hmem⟩
          injection hd with h1 h2
          rw [h1] at hm
          exact absurd hmem hm
  | seq a b iha ihb =>
      intro v
      simp only [reDeriv]
      by_cases hn : reNullable a = true
      · rw [if_pos hn]
        constructor
        · intro h
          rcases alt_mem_inv h with h | h
          · rcases seq_mem_inv h with ⟨x, y, rfl, hx, hy⟩
            have := ReMem.seq ((iha x).mp hx) hy
            simpa using this
          · have hb := (ihb v).mp h
            have ha0 : ReMem a [] := (reNullable_iff a).mp hn
            have := ReMem.seq ha0 hb
            simpa using this
        · intro h
          rcases seq_mem_inv h with ⟨x, y, hxy, hx, hy⟩
          cases x with
          | nil =>
              simp only [List.nil_append] at hxy
              rw [← hxy] at hy
              exact ReMem.altR ((ihb v).mpr hy)
          | cons x0 xs =>
              rw [List.cons_append] at hxy
              injection hxy with h1 h2
              subst h1
              subst h2
              exact ReMem.altL (ReMem.seq ((iha xs).mpr hx) hy)
      · rw [if_neg hn]
        constructor
        · intro h
          rcases seq_mem_inv h with ⟨x, y, rfl, hx, hy⟩
          have := ReMem.seq ((iha x).mp hx) hy
          simpa using this
        · intro h
          rcases seq_mem_inv h with ⟨x, y, hxy, hx, hy⟩
          cases x with
          | nil =>
              exact absurd ((reNullable_iff a).mpr hx) hn
          | cons x0 xs =>
              rw [List.cons_append] at hxy
              injection hxy with h1 h2
              subst h1
              subst h2
              exact ReMem.seq ((iha xs).mpr hx) hy
  | alt a b iha ihb =>
      intro v
      simp only [reDeriv]
      constructor
      · intro h
        rcases alt_mem_inv h with h | h
        · exact ReMem.altL ((iha v).mp h)
        · exact ReMem.altR ((ihb v).mp h)
      · intro h
        rcases alt_mem_inv h with h | h
        · exact ReMem.altL ((iha v).mpr h)
        · exact ReMem.altR ((ihb v).mpr h)
  | star a iha =>
      intro v
      simp only [reDeriv]
      constructor
      · intro h
        rcases seq_mem_inv h with ⟨x, y, rfl, hx, hy⟩
        exact ReMem.starCons ((iha x).mp hx) hy
      · intro h
        rcases star_mem_inv h with h0 | ⟨d, x, y, hxy, hx, hy⟩
        · exact absurd h0 (by simp)
        · injection hxy with h1 h2
          subst h1
          subst h2
          exact ReMem.seq ((iha x).mpr hx) hy

theorem reMatchList_iff (v : List Char) : ∀ r : JsRe,
    reMatchList r v = true ↔ ReMem r v := by
  induction v with
  | nil =>
      intro r
      exact reNullable_iff r
  | cons c cs ih =>
      intro r
      rw [show reMatchList r (c :: cs) = reMatchList (reDeriv c r) cs from rfl, ih]
      exact reDeriv_iff c r cs

theorem range_singleton (c d : Char) :
    (decide (c ≤ d) && decide (d ≤ c)) = (d == c) := by
  rw [Bool.eq_iff_iff, Bool.and_eq_true, decide_eq_true_eq, decide_eq_true_eq,
    beq_iff_eq]
  constructor
  · rintro ⟨h1, h2⟩
    exact le_antisymm h2 h1
  · rintro rfl
    exact ⟨le_refl d, le_refl d⟩

theorem clsMem_lit (c d : Char) : clsMem false [(c, c)] d = (d == c) := by
  show (([(c, c)].any (fun r => decide (r.1 ≤ d) && decide (d ≤ r.2))) != false) = (d == c)
  rw [List.any_cons, List.any_nil, Bool.or_false, Bool.bne_false, range_singleton]

theorem litRe_mem_iff (c : Char) (v : List Char) :
    ReMem (litRe c) v ↔ v = [c] := by
  constructor
  · intro h
    rcases cls_mem_inv h with ⟨d, rfl, hm⟩
    rw [clsMem_lit, beq_iff_eq] at hm
    rw [hm]
  · rintro rfl
    exact ReMem.cls (by rw [clsMem_lit]; exact beq_self_eq_true c)

theorem reLits_mem (l : List Char) (k : JsRe) :
    ∀ v : List Char, ReMem (reLits l k) v ↔ ∃ t, v = l ++ t ∧ ReMem k t := by
  induction l with
  | nil =>
      intro v
      constructor
      · intro h; exact ⟨v, rfl, h⟩
      · rintro ⟨t, rfl, h⟩; exact h
  | cons c l ih =>
      intro v
      constructor
      · intro h
        rcases seq_mem_inv h with ⟨x, y, rfl, hx, hy⟩
        rw [litRe_mem_iff] at hx
        subst hx
        rcases (ih y).mp hy with ⟨t, rfl, hk⟩
        exact ⟨t, rfl, hk⟩
      · rintro ⟨t, rfl, hk⟩
        have hx : ReMem (litRe c) [c] := (litRe_mem_iff c [c]).mpr rfl
        have := ReMem.seq hx ((ih (l ++ t)).mpr ⟨t, rfl, hk⟩)
        simpa using this

theorem clsMem_dot (c : Char) : clsMem true dotRanges c = jsDotChar c := by
  show ((dotRanges.any (fun r => decide (r.1 ≤ c) && decide (c ≤ r.2))) != true)
      = jsDotChar c
  rw [Bool.bne_true]
  unfold dotRanges jsDotChar
  simp only [List.any_cons, List.any_nil, Bool.or_false, range_singleton,
    Bool.or_assoc]

theorem starDot_mem_iff : ∀ v : List Char,
    ReMem (.star dotRe) v ↔ v.all jsDotChar = true := by
  intro v
  induction v with
  | nil =>
      constructor
      · intro _; rfl
      · intro _; exact ReMem.starNil
  | cons c cs ih =>
      constructor
      · intro h
        rcases star_mem_inv h with h0 | ⟨d, x, y, hxy, hx, hy⟩
        · exact absurd h0 (by simp)
        · rcases cls_mem_inv hx with ⟨e, he, hme⟩
          injection he with he1 he2
          subst he1
          subst he2
          simp only [List.nil_append] at hxy
          injection hxy with h1 h2
          subst h1
          subst h2
          rw [List.all_cons, Bool.and_eq_true]
          refine ⟨?_, (ih).mp hy⟩
          rw [← clsMem_dot]
          exact hme
      · intro h
        rw [List.all_cons, Bool.and_eq_true] at h
        have hx : ReMem dotRe [c] := ReMem.cls (by rw [clsMem_dot]; exact h.1)
        have := ReMem.starCons (x := []) hx ((ih).mpr h.2)
        simpa using this

theorem plainChar_contains_false {c : Char} (hc : plainChar c = true) :
    regexSyntaxChars.contains c = false := by
  cases h : regexSyntaxChars.contains c with
  | false => rfl
  | true =>
      rw [plainChar, h] at hc
      exact absurd hc (by decide)

theorem plainChar_beq_false {c : Char} (d : Char) (hc : plainChar c = true)
    (hd : regexSyntaxChars.contains d = true) : (c == d) = false := by
  cases h : c == d with
  | false => rfl
  | true =>
      rw [beq_iff_eq] at h
      subst h
      rw [plainChar_contains_false hc] at hd
      cases hd

theorem jsRewrite_plain (l : List Char) (hl : l.all plainChar = true) :
    jsRewrite l = l := by
  induction l with
  | nil => rfl
  | cons c rest ih =>
      rw [List.all_cons, Bool.and_eq_true] at hl
      rw [jsRewrite, plainChar_beq_false '*' hl.1 (by decide),
        plainChar_beq_false '?' hl.1 (by decide)]
      simp only [Bool.false_eq_true, if_false]
      rw [ih hl.2]

theorem jsRewrite_plain_star (l : List Char) (hl : l.all plainChar = true) :
    jsRewrite (l ++ ['*']) = l ++ ['.', '*'] := by
  induction l with
  | nil => rfl
  | cons c rest ih =>
      rw [List.all_cons, Bool.and_eq_true] at hl
      rw [List.cons_append, jsRewrite, plainChar_beq_false '*' hl.1 (by decide),
        plainChar_beq_false '?' hl.1 (by decide)]
      simp only [Bool.false_eq_true, if_false]
      rw [ih hl.2, List.cons_append]

theorem parseRegex_atom_plain (fuel : Nat) (c : Char) (rest : List Char)
    (hc : plainChar c = true) (hfuel : 1 ≤ fuel) :
    parseRegex fuel .atom (c :: rest) = some (litRe c, rest) := by
  cases fuel with
  | zero => omega
  | succ f =>
      simp only [parseRegex, plainChar_beq_false '(' hc (by decide),
        plainChar_beq_false '[' hc (by decide),
        plainChar_beq_false '.' hc (by decide),
        plainChar_beq_false '\\' hc (by decide),
        plainChar_contains_false hc, Bool.false_eq_true, if_false]

theorem startsWithQuant_plain (cs : List Char)
    (h : cs.all plainChar = true) : startsWithQuant cs = false := by
  cases cs with
  | nil => rfl
  | cons c rest =>
      rw [List.all_cons, Bool.and_eq_true] at h
      rw [startsWithQuant, plainChar_beq_false '*' h.1 (by decide),
        plainChar_beq_false '+' h.1 (by decide)]
      rfl

theorem startsWithQuant_app_dotstar (cs : List Char)
    (h : cs.all plainChar = true) :
    startsWithQuant (cs ++ ['.', '*']) = false := by
  cases cs with
  | nil => rfl
  | cons c rest =>
      rw [List.all_cons, Bool.and_eq_true] at h
      rw [List.cons_append, startsWithQuant,
        plainChar_beq_false '*' h.1 (by decide),
        plainChar_beq_false '+' h.1 (by decide)]
      rfl

theorem applyQuantifier_no_quant (a : JsRe) (cs : List Char)
    (h : startsWithQuant cs = false) : applyQuantifier a cs = some (a, cs) := by
  cases cs with
  | nil => rfl
  | cons c rest =>
      rw [startsWithQuant, Bool.or_eq_false_iff] at h
      rw [applyQuantifier, h.1, h.2]
      simp only [Bool.false_eq_true, if_false]

theorem parseRegex_seq_plain (l : List Char) :
    ∀ fuel, l.all plainChar = true → l.length + 1 ≤ fuel →
      parseRegex fuel .sequence l = some (reLits l .eps, []) := by
  induction l with
  | nil =>
      intro fuel _ hfuel
      cases fuel with
      | zero => omega
      | succ f => rfl
  | cons c rest ih =>
      intro fuel hall hfuel
      rw [List.all_cons, Bool.and_eq_true] at hall
      cases fuel with
      | zero => simp at hfuel
      | succ f =>
          have hf : rest.length + 1 ≤ f := by
            simp only [List.length_cons] at hfuel
            omega
          simp only [parseRegex,
            plainChar_beq_false ')' hall.1 (by decide),
            plainChar_beq_false '|' hall.1 (by decide),
            Bool.or_self, Bool.false_eq_true, if_false,
            parseRegex_atom_plain f c rest hall.1 (by omega),
            applyQuantifier_no_quant (litRe c) rest
              (startsWithQuant_plain rest hall.2),
            ih f hall.2 hf, reLits]

theorem parseRegex_seq_plain_dotstar (l : List Char) :
    ∀ fuel, l.all plainChar = true → l.length + 3 ≤ fuel →
      parseRegex fuel .sequence (l ++ ['.', '*']) =
        some (reLits l (.seq (.star dotRe) .eps), []) := by
  induction l with
  | nil =>
      intro fuel _ hfuel
      cases fuel with
      | zero => omega
      | succ f =>
          cases f with
          | zero => omega
          | succ f2 => rfl
  | cons c rest ih =>
      intro fuel hall hfuel
      rw [List.all_cons, Bool.and_eq_true] at hall
      cases fuel with
      | zero => simp at hfuel
      | succ f =>
          have hf : rest.length + 3 ≤ f := by
            simp only [List.length_cons] at hfuel
            omega
          rw [List.cons_append]
          simp only [parseRegex,
            plainChar_beq_false ')' hall.1 (by decide),
            plainChar_beq_false '|' hall.1 (by decide),
            Bool.or_self, Bool.false_eq_true, if_false,
            parseRegex_atom_plain f c (rest ++ ['.', '*']) hall.1 (by omega),
            applyQuantifier_no_quant (litRe c) (rest ++ ['.', '*'])
              (startsWithQuant_app_dotstar rest hall.2),
            ih f hall.2 hf, reLits]

theorem compilePattern_plain (p : String) (hp : p.data.all plainChar = true) :
    compilePattern p = some (reLits p.data .eps) := by
  unfold compilePattern
  rw [jsRewrite_plain p.data hp,
    parseRegex_seq_plain p.data (4 * p.data.length + 4) hp (by omega)]

theorem compilePattern_plain_star (p : String)
    (hp : p.data.all plainChar = true) :
    compilePattern (p ++ "*") = some (reLits p.data (.seq (.star dotRe) .eps)) := by
  unfold compilePattern
  have hdata : (p ++ "*").data = p.data ++ ['*'] := by
    rw [String.data_append, (by decide : "*".data = ['*'])]
  rw [hdata, jsRewrite_plain_star p.data hp,
    show (p.data ++ ['.', '*']).length = p.data.length + 2 by simp,
    parseRegex_seq_plain_dotstar p.data (4 * (p.data.length + 2) + 4) hp
      (by omega)]

theorem matchPattern_plain_iff (p v : String)
    (hp : p.data.all plainChar = true) :
    matchPattern p v = true ↔ p = v := by
  unfold matchPattern
  rw [compilePattern_plain p hp]
  show reMatchList (reLits p.data .eps) v.data = true ↔ p = v
  rw [reMatchList_iff, reLits_mem]
  constructor
  · rintro ⟨t, hv, ht⟩
    rw [eps_mem_inv ht, List.append_nil] at hv
    exact (string_data_ext hv).symm
  · rintro rfl
    exact ⟨[], (List.append_nil _).symm, ReMem.eps⟩

theorem matchPattern_star_iff (p v : String)
    (hp : p.data.all plainChar = true) :
    matchPattern (p ++ "*") v = true ↔
      ∃ t : String, v = p ++ t ∧ t.data.all jsDotChar = true := by
  unfold matchPattern
  rw [compilePattern_plain_star p hp]
  show reMatchList (reLits p.data (.seq (.star dotRe) .eps)) v.data = true ↔ _
  rw [reMatchList_iff, reLits_mem]
  constructor
  · rintro ⟨t, hv, ht⟩
    rcases seq_mem_inv ht with ⟨x, y, rfl, hx, hy⟩
    rw [eps_mem_inv hy, List.append_nil] at hv
    refine ⟨⟨x⟩, string_data_ext ?_, (starDot_mem_iff x).mp hx⟩
    rw [String.data_append]
    exact hv
  · rintro ⟨t, rfl, ht⟩
    refine ⟨t.data, ?_, ?_⟩
    · rw [String.data_append]
    · have := ReMem.seq ((starDot_mem_iff t.data).mpr ht) ReMem.eps
      simpa using this

/-- C6 counterexample.  The claim says a resource-id pattern with a
trailing `_` matches exactly the resource-ids that have the pattern text
as a prefix — so `premium_` would have to match `premium_video`.
`matchPattern` gives `_` no special meaning (only `*` and `?` are
rewritten before the pattern is compiled as a regex), so the match fails
on exactly such an input. -/
theorem C6_counterexample :
    matchPattern "premium_" ("premium_" ++ "video") = false := by decide

/-- C6, amended: `matchPattern` compiles the pattern as an *unescaped*
regular expression after rewriting `*` to `.` `*` and `?` to `.`.  For
patterns free of regex metacharacters, matching is exact: the pattern
matches only the value equal to the pattern itself (a trailing `_` is an
ordinary character with no prefix semantics).  A trailing `*` appended
to such a pattern gives prefix matching, the leftover being matched by
the inserted `.` `*`, i.e. any run of non-line-terminator characters;
a `?` matches exactly one such character.  Every other regex
metacharacter keeps its regex meaning — `a+` matches `aa` and not the
literal string `a+`, `(a|b)` alternates, `[0-9]` is a character
class — rather than the metacharacter matching itself.  (A top-level
`|`, over which the source's anchors do not scope, is outside the
modelled fragment.) -/
theorem C6_wildcard_matching :
    (∀ p v : String, p.data.all plainChar = true →
      (matchPattern p v = true ↔ p = v)) ∧
    (∀ p v : String, p.data.all plainChar = true →
      (matchPattern (p ++ "*") v = true ↔
        ∃ t : String, v = p ++ t ∧ t.data.all jsDotChar = true)) ∧
    matchPattern "a?c" "abc" = true ∧ matchPattern "a?c" "ac" = false ∧
    matchPattern "a+" "aa" = true ∧ matchPattern "a+" "a+" = false ∧
    matchPattern "(a|b)" "b" = true ∧ matchPattern "[0-9]" "7" = true ∧
    matchPattern "[0-9]" "x" = false :=
  ⟨matchPattern_plain_iff, matchPattern_star_iff,
    by decide, by decide, by decide, by decide, by decide, by decide, by decide⟩

/-- C6 witness: the amended theorem applied at the metacharacter-free
pattern `premium_` (matching only itself) and at `premium_` with a
trailing `*` (prefix-matching `premium_video`). -/
theorem C6_witness :
    ("premium_".data.all plainChar = true ∧
      (matchPattern "premium_" "premium_" = true ↔
        ("premium_" : String) = "premium_")) ∧
    matchPattern ("premium_" ++ "*") "premium_video" = true := by
  refine ⟨⟨by decide, C6_wildcard_matching.1 "premium_" "premium_" (by decide)⟩, ?_⟩
  exact (C6_wildcard_matching.2.1 "premium_" "premium_video" (by decide)).mpr
    ⟨"video", rfl, by decide⟩

/-! ### Claim C10: getRoleSwitchHistory -/

/-- C10 counterexample.  The claim says the call returns at most `limit`
records for every limit; but `history.slice(-limit)` with `limit = 0` is
`history.slice(0)`, the whole history (JavaScript has `-0 === 0`), so a
one-record history produces one record, not zero. -/
theorem C10_counterexample :
    getRoleSwitchHistory
      [{ id := "switch_1", fromRole := UserRole.guest,
         toRole := UserRole.regular, switchTime := 0,
         reason := none, success := true }] 0 =
      [{ id := "switch_1", fromRole := UserRole.guest,
         toRole := UserRole.regular, switchTime := 0,
         reason := none, success := true }] := by decide

/-- C10, amended: for every positive `limit` (the default is 10),
`getRoleSwitchHistory` returns the `limit` most recent records of the
stored (chronologically appended) history, newest first — that is, the
first `limit` entries of the reversed history — and hence at most
`limit` records; the stored list is read, not modified.  For
`limit = 0` the whole history is returned instead. -/
theorem C10_recent_history (history : List RoleSwitchRecord) (limit : Nat)
    (hpos : 1 ≤ limit) :
    getRoleSwitchHistory history limit = history.reverse.take limit ∧
    (getRoleSwitchHistory history limit).length ≤ limit := by
  have hzero : limit ≠ 0 := by omega
  have hmain : getRoleSwitchHistory history limit = history.reverse.take limit := by
    unfold getRoleSwitchHistory jsSliceLast
    rw [if_neg hzero, List.reverse_drop]
    by_cases hle : limit ≤ history.length
    · have : history.length - (history.length - limit) = limit := by omega
      rw [this]
    · have h1 : history.length - (history.length - limit) = history.length := by omega
      rw [h1]
      have h2 : history.reverse.length ≤ limit := by
        rw [List.length_reverse]
        omega
      rw [List.take_of_length_le h2, List.take_of_length_le (le_of_eq (List.length_reverse history))]
  refine ⟨hmain, ?_⟩
  rw [hmain]
  calc (history.reverse.take limit).length ≤ limit := List.length_take_le limit history.reverse

/-- C10 witness: the amended theorem applied to a two-record history
with `limit = 1`: only the newest record is returned. -/
theorem C10_witness :
    getRoleSwitchHistory
      [{ id := "switch_1", fromRole := UserRole.guest,
         toRole := UserRole.regular, switchTime := 1,
         reason := none, success := true },
       { id := "switch_2", fromRole := UserRole.regular,
         toRole := UserRole.channel, switchTime := 2,
         reason := none, success := true }] 1 =
      [{ id := "switch_2", fromRole := UserRole.regular,
         toRole := UserRole.channel, switchTime := 2,
         reason := none, success := true }] := by
  rw [(C10_recent_history _ 1 (by decide)).1]
  decide

/-! ### Claim C1: single-flight switch coordination -/

theorem switchSettle_queue_sub_locks {s : CoordinationState} {k' : String}
    (ih : ∀ k, s.switchQueue.contains k = true → s.switchLocks.contains k = true) :
    ∀ k, (switchSettle s k').switchQueue.contains k = true →
      (switchSettle s k').switchLocks.contains k = true := by
  intro k hk
  unfold switchSettle at hk ⊢
  rw [List.elem_iff] at hk ⊢
  rw [List.mem_filter] at hk ⊢
  exact ⟨List.elem_iff.1 (ih k (List.elem_iff.2 hk.1)), hk.2⟩

theorem coordination_queue_sub_locks {s : CoordinationState}
    (hs : ReachableCoordination s) :
    ∀ k, s.switchQueue.contains k = true → s.switchLocks.contains k = true := by
  induction hs with
  | init =>
      intro k hk
      simp at hk
  | entry k' _ ih =>
      intro k hk
      rename_i s _
      by_cases h1 : s.switchLocks.contains k' = true
      · simp only [switchRoleEntry, if_pos h1] at hk ⊢
        exact ih k hk
      · by_cases h2 : s.switchQueue.contains k' = true
        · simp only [switchRoleEntry, if_neg h1, if_pos h2] at hk ⊢
          exact ih k hk
        · simp only [switchRoleEntry, if_neg h1, if_neg h2] at hk ⊢
          rw [List.elem_iff, List.mem_append] at hk ⊢
          rcases hk with hk | hk
          · exact Or.inl (List.elem_iff.1 (ih k (List.elem_iff.2 hk)))
          · exact Or.inr hk
  | settle k' _ ih =>
      exact switchSettle_queue_sub_locks ih
  | cancel k' _ ih =>
      intro k hk
      rename_i s _
      unfold cancelRoleSwitch at hk ⊢
      by_cases h1 : s.switchLocks.contains k' = true
      · simp only [if_pos h1] at hk ⊢
        exact switchSettle_queue_sub_locks ih k hk
      · simp only [if_neg h1] at hk ⊢
        exact ih k hk

/-- C1 counterexample.  The claim says a second `switchRole` call for a
principal with a switch in flight returns the in-flight switch's
result.  In the source the lock check precedes the queue check, and
`performRoleSwitch` takes the lock synchronously before `switchRole`
fills the queue — so the second caller hits the lock branch and gets an
immediate fresh `false`, never the coalesced in-flight result. -/
theorem C1_counterexample :
    switchRoleEntry (switchRoleEntry ⟨[], []⟩ "user_1").2 "user_1" =
      (SwitchEntryOutcome.rejectedBusy, (switchRoleEntry ⟨[], []⟩ "user_1").2) ∧
    SwitchEntryOutcome.rejectedBusy ≠ SwitchEntryOutcome.coalesced := by
  constructor
  · decide
  · decide

/-- C1, amended: while a switch for a principal is in flight (its lock
is held), a second `switchRole` call for the same principal returns
`false` immediately without starting a second switch or touching the
coordination state — so two switches for the same principal indeed
never run concurrently, but the second caller gets a fresh rejection,
not the in-flight result; in every reachable coordination state the
request-coalescing branch (`coalesced`) is unreachable, because a
queued switch always also holds the lock that is checked first. -/
theorem C1_second_call_rejected {s : CoordinationState}
    (hs : ReachableCoordination s) (k : String) :
    (switchRoleEntry s k).1 ≠ SwitchEntryOutcome.coalesced ∧
    (s.switchLocks.contains k = true →
      switchRoleEntry s k = (SwitchEntryOutcome.rejectedBusy, s)) := by
  constructor
  · intro hco
    unfold switchRoleEntry at hco
    by_cases h1 : s.switchLocks.contains k = true
    · rw [if_pos h1] at hco
      simp at hco
    · rw [if_neg h1] at hco
      by_cases h2 : s.switchQueue.contains k = true
      · exact h1 (coordination_queue_sub_locks hs k h2)
      · rw [if_neg h2] at hco
        simp at hco
  · intro h1
    unfold switchRoleEntry
    rw [if_pos h1]

/-- C1 witness: the amended theorem applied to the reachable state in
which a switch for `user_1` has just been started. -/
theorem C1_witness :
    (switchRoleEntry (switchRoleEntry ⟨[], []⟩ "user_1").2 "user_1").1 ≠
      SwitchEntryOutcome.coalesced ∧
    switchRoleEntry (switchRoleEntry ⟨[], []⟩ "user_1").2 "user_1" =
      (SwitchEntryOutcome.rejectedBusy, (switchRoleEntry ⟨[], []⟩ "user_1").2) := by
  have h := C1_second_call_rejected
    (ReachableCoordination.entry "user_1" ReachableCoordination.init) "user_1"
  exact ⟨h.1, h.2 (by decide)⟩

/-! ### Frame lemmas for `RoleStateManager.switchRole` -/

/-- A failing `RoleStateManager.switchRole` never touches the switch
history or the state-object table, and away from the `enter`-hook
failure it leaves the whole manager untouched. -/
theorem switchRole_false_frame (oracle : EffectOracle) (m : RoleStateManager)
    (userId : String) (options : RoleSwitchOptions) (now : Nat)
    {m' : RoleStateManager} {err : Option SwitchError}
    (h : RoleStateManager.switchRole oracle m userId options now = (false, m', err)) :
    m'.switchHistory = m.switchHistory ∧ m'.currentStates = m.currentStates ∧
    (err ≠ some SwitchError.enterFailed → m' = m) := by
  unfold RoleStateManager.switchRole at h
  split at h
  · simp only [Prod.mk.injEq] at h
    obtain ⟨-, rfl, -⟩ := h
    exact ⟨rfl, rfl, fun _ => rfl⟩
  · split at h
    · simp only [Prod.mk.injEq] at h
      obtain ⟨-, rfl, -⟩ := h
      exact ⟨rfl, rfl, fun _ => rfl⟩
    · split at h
      · simp only [Prod.mk.injEq] at h
        obtain ⟨-, rfl, -⟩ := h
        exact ⟨rfl, rfl, fun _ => rfl⟩
      · split at h
        · simp only [Prod.mk.injEq] at h
          obtain ⟨-, rfl, -⟩ := h
          exact ⟨rfl, rfl, fun _ => rfl⟩
        · split at h
          · simp only [Prod.mk.injEq] at h
            obtain ⟨-, rfl, -⟩ := h
            exact ⟨rfl, rfl, fun _ => rfl⟩
          · split at h
            · simp only [Prod.mk.injEq] at h
              obtain ⟨-, rfl, -⟩ := h
              exact ⟨rfl, rfl, fun _ => rfl⟩
            · split at h
              · simp only [Prod.mk.injEq] at h
                obtain ⟨-, rfl, rfl⟩ := h
                refine ⟨rfl, rfl, fun hne => absurd rfl hne⟩
              · simp at h

/-- The `userRoleInfo` map after any `RoleStateManager.switchRole` call:
either untouched, or updated at the principal with the target role
object found in its available roles as the new current role. -/
theorem switchRole_userRoleInfo_cases (oracle : EffectOracle)
    (m : RoleStateManager) (userId : String) (options : RoleSwitchOptions)
    (now : Nat) :
    (RoleStateManager.switchRole oracle m userId options now).2.1.userRoleInfo =
      m.userRoleInfo ∨
    (∃ info target, mapGet m.userRoleInfo userId = some info ∧
      info.availableRoles.find? (fun role => role.type == options.targetRole) =
        some target ∧
      (RoleStateManager.switchRole oracle m userId options now).2.1.userRoleInfo =
        mapSet m.userRoleInfo userId { info with currentRole := target }) := by
  unfold RoleStateManager.switchRole
  split
  · exact Or.inl rfl
  · rename_i info hinfo
    split
    · exact Or.inl rfl
    · split
      · exact Or.inl rfl
      · split
        · exact Or.inl rfl
        · split
          · exact Or.inl rfl
          · split
            · exact Or.inl rfl
            · rename_i target hfind
              split
              · exact Or.inr ⟨info, target, hinfo, hfind, rfl⟩
              · refine Or.inr ⟨info, target, hinfo, hfind, ?_⟩
                split <;> rfl

/-! ### Claim C9: the current-role-in-available-roles invariant -/

/-- C9: each of the three mutating operations of the role state manager
preserves the invariant that every stored principal's current role is
an element of its available-roles list, and `removeUserRole` never
changes any principal's current role (in particular it never removes
the active role: a removal request for the active role's kind is
refused before any mutation). -/
theorem C9_invariant_preserved (oracle : EffectOracle) (m : RoleStateManager)
    (userId : String) (options : RoleSwitchOptions) (role : Role)
    (roleType : UserRole) (now : Nat) (h : roleInvariant m) :
    roleInvariant (RoleStateManager.switchRole oracle m userId options now).2.1 ∧
    roleInvariant (RoleStateManager.addUserRole oracle m userId role now).2 ∧
    roleInvariant (RoleStateManager.removeUserRole m userId roleType now).2 ∧
    (∀ u : String,
      (mapGet (RoleStateManager.removeUserRole m userId roleType now).2.userRoleInfo u).map
          (fun info => info.currentRole) =
        (mapGet m.userRoleInfo u).map (fun info => info.currentRole)) := by
  refine ⟨?_, ?_, ?_, ?_⟩
  · rcases switchRole_userRoleInfo_cases oracle m userId options now with hc | ⟨info, target, hinfo, hfind, hc⟩
    · intro p hp
      rw [hc] at hp
      exact h p hp
    · intro p hp
      rw [hc] at hp
      rcases mem_mapSet hp with rfl | hpm
      · exact List.mem_of_find?_eq_some hfind
      · exact h p hpm
  · unfold RoleStateManager.addUserRole
    split
    · rename_i hinfo
      have hbase : ∀ p ∈ mapSet m.userRoleInfo userId
          { userId := userId, currentRole := role, availableRoles := [role]
            lastUpdated := now },
          p.2.currentRole ∈ p.2.availableRoles := by
        intro p hp
        rcases mem_mapSet hp with rfl | hpm
        · exact List.mem_singleton_self role
        · exact h p hpm
      split
      · exact hbase
      · exact hbase
    · rename_i info hinfo
      split
      · exact h
      · intro p hp
        rcases mem_mapSet hp with rfl | hpm
        · rcases mapGet_mem hinfo with ⟨q, hq, -, rfl⟩
          exact List.mem_append_left _ (h q hq)
        · exact h p hpm
  · unfold RoleStateManager.removeUserRole
    split
    · exact h
    · rename_i info hinfo
      split
      · exact h
      · rename_i hguard
        intro p hp
        rcases mem_mapSet hp with rfl | hpm
        · rcases mapGet_mem hinfo with ⟨q, hq, -, rfl⟩
          refine List.mem_filter.2 ⟨h q hq, ?_⟩
          simpa using hguard
        · exact h p hpm
  · intro u
    unfold RoleStateManager.removeUserRole
    split
    · rfl
    · rename_i info hinfo
      split
      · rfl
      · by_cases hu : u = userId
        · subst hu
          rw [mapGet_mapSet_self, hinfo]
          rfl
        · rw [mapGet_mapSet_ne _ _ _ _ hu]

/-- C9 witness: the invariant-preservation theorem applied to a concrete
one-principal manager (current role `regular`, available roles
`regular` and `channel`) with a switch to `channel`, an added
`institutional` role and a removal request for `channel`. -/
theorem C9_witness :
    roleInvariant
      (RoleStateManager.switchRole ⟨fun _ => false, fun _ => false⟩
        { currentStates := [("u", UserRole.regular)]
          userRoleInfo := [("u",
            { userId := "u"
              currentRole := { id := "r1", type := UserRole.regular, name := "r",
                               permissions := [], status := RoleStatus.active }
              availableRoles :=
                [{ id := "r1", type := UserRole.regular, name := "r",
                   permissions := [], status := RoleStatus.active },
                 { id := "c1", type := UserRole.channel, name := "c",
                   permissions := [], status := RoleStatus.active }]
              lastUpdated := 0 })]
          switchHistory := [] }
        "u" { targetRole := UserRole.channel, reason := none, saveHistory := true }
        5).2.1 := by
  have h := C9_invariant_preserved ⟨fun _ => false, fun _ => false⟩
    { currentStates := [("u", UserRole.regular)]
      userRoleInfo := [("u",
        { userId := "u"
          currentRole := { id := "r1", type := UserRole.regular, name := "r",
                           permissions := [], status := RoleStatus.active }
          availableRoles :=
            [{ id := "r1", type := UserRole.regular, name := "r",
               permissions := [], status := RoleStatus.active },
             { id := "c1", type := UserRole.channel, name := "c",
               permissions := [], status := RoleStatus.active }]
          lastUpdated := 0 })]
      switchHistory := [] }
    "u" { targetRole := UserRole.channel, reason := none, saveHistory := true }
    { id := "i1", type := UserRole.institutional, name := "i",
      permissions := [], status := RoleStatus.active }
    UserRole.channel 5 (by unfold roleInvariant; decide)
  exact h.1

/-! ### Claim C3: failures of the Enter/Exit hooks -/

/-- C3 counterexample.  The claim says a failure during `Enter` leaves
the principal in the pre-transition state.  With hooks whose `enter`
for `channel` throws, a `regular → channel` switch reports failure —
but the principal's current role has already been reassigned to the
channel role (`currentRoleInfo.currentRole = targetRole` runs before
`targetState.enter`), so a partial transition is observable. -/
theorem C3_counterexample :
    (RoleStateManager.switchRole enterChannelFailsOracle sampleManager "u"
      { targetRole := UserRole.channel, reason := none, saveHistory := true } 5).1 = false ∧
    (mapGet (RoleStateManager.switchRole enterChannelFailsOracle sampleManager "u"
      { targetRole := UserRole.channel, reason := none, saveHistory := true } 5).2.1.userRoleInfo
        "u").map (fun info => info.currentRole.type) = some UserRole.channel ∧
    (mapGet sampleManager.userRoleInfo "u").map (fun info => info.currentRole.type) =
      some UserRole.regular := by
  refine ⟨by decide, by decide, by decide⟩

/-- C3, amended: when the current state's `exit` hook throws, the switch
reports failure and the manager is left exactly in the pre-transition
state.  When the target state's `enter` hook throws, the failure is
reported and the switch history and state-object table are untouched,
but the principal's current role has already been updated to the target
role object — the pre-transition current role is not restored. -/
theorem C3_hook_failure_frame (oracle : EffectOracle) (m : RoleStateManager)
    (userId : String) (options : RoleSwitchOptions) (now : Nat)
    (info : UserRoleInfo) (st : UserRole)
    (hinfo : mapGet m.userRoleInfo userId = some info)
    (hst : mapGet m.currentStates userId = some st)
    (hval : validateRoleSwitch info.currentRole.type options.targetRole = true)
    (hhs : handleSwitch st options.targetRole = true) :
    (oracle.exitFails st = true →
      RoleStateManager.switchRole oracle m userId options now =
        (false, m, some SwitchError.exitFailed)) ∧
    (∀ target, oracle.exitFails st = false →
      info.availableRoles.find? (fun role => role.type == options.targetRole) =
        some target →
      oracle.enterFails options.targetRole = true →
      RoleStateManager.switchRole oracle m userId options now =
        (false,
          { m with userRoleInfo := mapSet m.userRoleInfo userId { info with currentRole := target } },
          some SwitchError.enterFailed)) := by
  constructor
  · intro hexit
    simp [RoleStateManager.switchRole, hinfo, hst, hval, hhs, hexit]
  · intro target hexit hfind henter
    simp [RoleStateManager.switchRole, hinfo, hst, hval, hhs, hexit, hfind, henter]

/-- C3 witness: the amended theorem applied to the concrete
one-principal manager, once with a throwing `exit` (state unchanged)
and once with a throwing `enter` (current role already `channel`). -/
theorem C3_witness :
    RoleStateManager.switchRole exitRegularFailsOracle sampleManager "u"
      { targetRole := UserRole.channel, reason := none, saveHistory := true } 5 =
      (false, sampleManager, some SwitchError.exitFailed) ∧
    RoleStateManager.switchRole enterChannelFailsOracle sampleManager "u"
      { targetRole := UserRole.channel, reason := none, saveHistory := true } 5 =
      (false,
        { sampleManager with userRoleInfo := mapSet sampleManager.userRoleInfo "u" { sampleInfo with currentRole := sampleChannelRole } },
        some SwitchError.enterFailed) := by
  constructor
  · exact (C3_hook_failure_frame exitRegularFailsOracle sampleManager "u"
      { targetRole := UserRole.channel, reason := none, saveHistory := true } 5
      sampleInfo UserRole.regular (by decide) (by decide) (by decide) (by decide)).1
      (by decide)
  · exact (C3_hook_failure_frame enterChannelFailsOracle sampleManager "u"
      { targetRole := UserRole.channel, reason := none, saveHistory := true } 5
      sampleInfo UserRole.regular (by decide) (by decide) (by decide) (by decide)).2
      sampleChannelRole (by decide) (by decide) (by decide)

/-! ### Claim C4: what a failed switch records and notifies -/

/-- C4 counterexample.  The claim says every failed switch appends a
`SwitchRecord` with `success = false` to the principal's history.  A
concrete failing request (`regular → admin`, rejected by the legality
check) notifies observers of the failure but appends nothing: the
history map is exactly as empty afterwards as before.  No code path
ever records a `success = false` entry (`recordRoleSwitch` is reached
only on the success path). -/
theorem C4_counterexample :
    (performRoleSwitch noFailOracle sampleManager "u"
      { targetRole := UserRole.admin, reason := none, saveHistory := true } 5).1 = false ∧
    (performRoleSwitch noFailOracle sampleManager "u"
      { targetRole := UserRole.admin, reason := none, saveHistory := true } 5).2.1.switchHistory = [] ∧
    ((performRoleSwitch noFailOracle sampleManager "u"
      { targetRole := UserRole.admin, reason := none, saveHistory := true } 5).2.2.map
        (fun e => e.type)) =
      [RoleSwitchEventType.switchStart, RoleSwitchEventType.switchFailed] := by
  refine ⟨by decide, by decide, by decide⟩

/-- A failing `performRoleSwitch` call: its event trail ends in a
`switch_failed` event, the switch history is untouched, and away from an
`enter`-hook failure the manager is unchanged. -/
theorem performRoleSwitch_false_frame (oracle : EffectOracle)
    (m : RoleStateManager) (userId : String) (options : RoleSwitchOptions)
    (now : Nat) {m' : RoleStateManager} {events : List RoleSwitchEvent}
    (h : performRoleSwitch oracle m userId options now = (false, m', events)) :
    m'.switchHistory = m.switchHistory ∧
    events.getLast?.map (fun e => e.type) = some RoleSwitchEventType.switchFailed ∧
    ((∀ e ∈ events, e.error ≠ some SwitchError.enterFailed) → m' = m) := by
  unfold performRoleSwitch at h
  split at h
  · simp only [Prod.mk.injEq] at h
    obtain ⟨-, rfl, rfl⟩ := h
    exact ⟨rfl, rfl, fun _ => rfl⟩
  · split at h
    · simp only [Prod.mk.injEq] at h
      obtain ⟨-, rfl, rfl⟩ := h
      exact ⟨rfl, rfl, fun _ => rfl⟩
    · split at h
      · simp only [Prod.mk.injEq] at h
        obtain ⟨-, rfl, rfl⟩ := h
        exact ⟨rfl, rfl, fun _ => rfl⟩
      · split at h
        · simp only [Prod.mk.injEq] at h
          obtain ⟨-, rfl, rfl⟩ := h
          exact ⟨rfl, rfl, fun _ => rfl⟩
        · split at h
          · simp at h
          · rename_i m1 err heq
            simp only [Prod.mk.injEq] at h
            obtain ⟨-, rfl, rfl⟩ := h
            have hframe := switchRole_false_frame oracle m userId options now heq
            refine ⟨hframe.1, rfl, ?_⟩
            intro hall
            refine hframe.2.2 ?_
            intro henter
            subst henter
            simp [switchFailedEvent] at hall

/-- C4, amended: on every failing switch request the coordinator
notifies observers of switch-failure (the emitted event sequence ends
with a `switch_failed` event), appends nothing to the principal's
switch history (in particular no `success = false` record — failures
are never recorded), and leaves the whole manager state — current role
included — unchanged, except that a failure of the target state's
`enter` hook leaves the already-updated current role behind. -/
theorem C4_failure_effects (oracle : EffectOracle) (m : RoleStateManager)
    (userId : String) (options : RoleSwitchOptions) (now : Nat)
    (hfail : (performRoleSwitch oracle m userId options now).1 = false) :
    (performRoleSwitch oracle m userId options now).2.1.switchHistory =
      m.switchHistory ∧
    ((performRoleSwitch oracle m userId options now).2.2.getLast?).map
      (fun e => e.type) = some RoleSwitchEventType.switchFailed ∧
    ((∀ e ∈ (performRoleSwitch oracle m userId options now).2.2,
        e.error ≠ some SwitchError.enterFailed) →
      (performRoleSwitch oracle m userId options now).2.1 = m) := by
  rcases hres : performRoleSwitch oracle m userId options now with ⟨b, m', events⟩
  rw [hres] at hfail
  simp only at hfail
  subst hfail
  exact performRoleSwitch_false_frame oracle m userId options now hres

/-- C4 witness: the amended theorem applied to the concrete failing
`regular → admin` request of the counterexample. -/
theorem C4_witness :
    (performRoleSwitch noFailOracle sampleManager "u"
      { targetRole := UserRole.admin, reason := none, saveHistory := true } 5).2.1.switchHistory =
      sampleManager.switchHistory ∧
    ((performRoleSwitch noFailOracle sampleManager "u"
      { targetRole := UserRole.admin, reason := none, saveHistory := true } 5).2.2.getLast?).map
      (fun e => e.type) = some RoleSwitchEventType.switchFailed := by
  have h := C4_failure_effects noFailOracle sampleManager "u"
    { targetRole := UserRole.admin, reason := none, saveHistory := true } 5 (by decide)
  exact ⟨h.1, h.2.1⟩

/-! ### Claim C8: the sliding-window rate limit -/

/-- C8 counterexample.  The claim counts "3 prior switch attempts", but
`checkBusinessRules` counts history records and the history records
only *successful* switches.  Three failed attempts (`regular → admin`,
illegal) leave the history empty, and the 4th attempt 3 ms after the
first — well inside the 60-second window — succeeds and mutates state
instead of being rejected with the rate-limit reason. -/
theorem C8_counterexample :
    (performRoleSwitch noFailOracle sampleManager "u"
      { targetRole := UserRole.admin, reason := none, saveHistory := true } 0).2.1 =
      sampleManager ∧
    (performRoleSwitch noFailOracle sampleManager "u"
      { targetRole := UserRole.admin, reason := none, saveHistory := true } 1).2.1 =
      sampleManager ∧
    (performRoleSwitch noFailOracle sampleManager "u"
      { targetRole := UserRole.admin, reason := none, saveHistory := true } 2).2.1 =
      sampleManager ∧
    (performRoleSwitch noFailOracle sampleManager "u"
      { targetRole := UserRole.channel, reason := none, saveHistory := true } 3).1 = true := by
  refine ⟨by decide, by decide, by decide, by decide⟩

/-- C8, amended: a 4th switch attempt within 60 seconds of 3 prior
*successful* switches of the same principal — one that passes the
transition-legality and target-availability checks that run first — is
rejected with the rate-limit reason and leaves the manager state
unchanged.  (Failed attempts are never recorded, so they do not count
toward the window, and an attempt failing an earlier check is rejected
with that check's reason instead.) -/
theorem C8_rate_limited (oracle : EffectOracle) (m : RoleStateManager)
    (userId : String) (options : RoleSwitchOptions) (now : Nat)
    (info : UserRoleInfo)
    (hinfo : mapGet m.userRoleInfo userId = some info)
    (hval : validateRoleSwitch info.currentRole.type options.targetRole = true)
    (hfind : (info.availableRoles.find?
      (fun role => role.type == options.targetRole)).isSome = true)
    (hrate : 3 ≤ ((getRoleSwitchHistory ((mapGet m.switchHistory userId).getD []) 5).filter
      (fun record => now - record.switchTime < 60000)).length) :
    performRoleSwitch oracle m userId options now =
      (false, m,
        [switchStartEvent info.currentRole.type options.targetRole,
         switchFailedEvent info.currentRole.type options.targetRole
           (some SwitchError.rateLimited)]) := by
  have hcb : checkBusinessRules m userId now =
      decide (¬ (((getRoleSwitchHistory ((mapGet m.switchHistory userId).getD []) 5).filter
        (fun record => now - record.switchTime < 60000)).length ≥ 3)) := rfl
  have hbiz : checkBusinessRules m userId now = false := by
    rw [hcb, decide_eq_false_iff_not]
    exact not_not_intro hrate
  rcases Option.isSome_iff_exists.1 hfind with ⟨target, htarget⟩
  simp [performRoleSwitch, hinfo, hval, hbiz, htarget]

/-- C8 witness: the amended theorem applied to a principal with three
successful switches recorded at times 0, 1 and 2, attempting a legal
`regular → channel` switch at time 10. -/
theorem C8_witness :
    performRoleSwitch noFailOracle
      { currentStates := [("u", UserRole.regular)]
        userRoleInfo := [("u", sampleInfo)]
        switchHistory := [("u",
          [{ id := "s1", fromRole := UserRole.regular, toRole := UserRole.channel,
             switchTime := 0, reason := none, success := true },
           { id := "s2", fromRole := UserRole.channel, toRole := UserRole.regular,
             switchTime := 1, reason := none, success := true },
           { id := "s3", fromRole := UserRole.regular, toRole := UserRole.channel,
             switchTime := 2, reason := none, success := true }])] }
      "u" { targetRole := UserRole.channel, reason := none, saveHistory := true } 10 =
      (false,
        { currentStates := [("u", UserRole.regular)]
          userRoleInfo := [("u", sampleInfo)]
          switchHistory := [("u",
            [{ id := "s1", fromRole := UserRole.regular, toRole := UserRole.channel,
               switchTime := 0, reason := none, success := true },
             { id := "s2", fromRole := UserRole.channel, toRole := UserRole.regular,
               switchTime := 1, reason := none, success := true },
             { id := "s3", fromRole := UserRole.regular, toRole := UserRole.channel,
               switchTime := 2, reason := none, success := true }])] },
        [switchStartEvent UserRole.regular UserRole.channel,
         switchFailedEvent UserRole.regular UserRole.channel
           (some SwitchError.rateLimited)]) := by
  exact C8_rate_limited noFailOracle _ "u"
    { targetRole := UserRole.channel, reason := none, saveHistory := true } 10
    sampleInfo (by decide) (by decide) (by decide) (by decide)

/-! ### Claim C5: fail-closed rule evaluation -/

/-- The template method of `BasePermissionStrategy` adds nothing around
the per-role `doCheckPermission`: `preCheck` always grants and
`postCheck` is the identity. -/
theorem strategyCheckPermission_eq (role : UserRole) (ctx : PermissionContext) :
    strategyCheckPermission role ctx = strategyDoCheckPermission role ctx := by
  unfold strategyCheckPermission strategyPreCheck strategyPostCheck
  simp only [Bool.not_true, Bool.false_eq_true, if_false]
  split <;> rfl

/-- A denying strategy result never carries the `unrestricted_access`
action class: every denial branch of the five strategies is
`login_guidance`, `role_switch_guidance` or (from the `catch`)
`complete_restriction`. -/
theorem strategy_deny_not_unrestricted (role : UserRole) (ctx : PermissionContext) :
    (strategyDoCheckPermission role ctx).hasPermission = false →
    (strategyDoCheckPermission role ctx).action ≠ AccessControlAction.unrestrictedAccess := by
  cases role <;> (unfold strategyDoCheckPermission; split_ifs <;> simp)

/-- When no rule of the matching list fires for the role/action (its
role set, action set or condition rejects), the loop of
`checkPermissionRules` falls through to complete restriction. -/
theorem checkRulesLoop_no_match (role : UserRole) (rt : ResourceType)
    (rid : String) (act : PermissionAction) :
    ∀ rules : List PermissionRule,
      (∀ rule ∈ rules,
        ¬(rule.requiredRoles.contains role = true ∧
          rule.requiredActions.contains act = true ∧
          (∀ cond, rule.conditions = some cond →
            cond (syntheticContext role rt rid act) = true))) →
      checkRulesLoop role rt rid act rules =
        ⟨false, AccessControlAction.completeRestriction, some "没有匹配的权限规则", none⟩ := by
  intro rules
  induction rules with
  | nil => intro _; rfl
  | cons rule rest ih =>
      intro h
      have hrule := h rule (List.mem_cons_self rule rest)
      have hrest := fun r hr => h r (List.mem_cons_of_mem rule hr)
      unfold checkRulesLoop
      cases h1 : rule.requiredRoles.contains role with
      | false =>
          simp only [h1, Bool.not_false, if_true]
          exact ih hrest
      | true =>
          cases h2 : rule.requiredActions.contains act with
          | false =>
              simp only [h1, h2, Bool.not_true, Bool.not_false, Bool.false_eq_true,
                if_false, if_true]
              exact ih hrest
          | true =>
              cases hc : rule.conditions with
              | none =>
                  refine absurd ⟨h1, h2, fun cond hcond => ?_⟩ hrule
                  rw [hc] at hcond
                  cases hcond
              | some cond =>
                  cases hcv : cond (syntheticContext role rt rid act) with
                  | true =>
                      refine absurd ⟨h1, h2, fun c hcond => ?_⟩ hrule
                      rw [hc] at hcond
                      injection hcond with he
                      rw [← he]
                      exact hcv
                  | false =>
                      simp only [h1, h2, hc, hcv, Bool.not_true, Bool.not_false,
                        Bool.false_eq_true, if_false, if_true]
                      exact ih hrest

/-- C5 counterexample.  A request with current role `guest`, resource
`(page, "/foo")` and action `view` has zero matching rules in the
default registry — yet the decision's action class is `login_guidance`
(the guest strategy's denial), not `fully-restricted`: the strategy
short-circuit runs before the rule registry, so its denial class is
what the caller sees. -/
theorem C5_counterexample :
    (findMatchingRules defaultRegistry ResourceType.page "/foo").isEmpty = true ∧
    (doCheckPermission defaultRegistry
      { userRole := some { userId := "u", currentRole := sampleGuestRole,
                           availableRoles := [sampleGuestRole], lastUpdated := 0 }
        resource := some { type := ResourceType.page, id := "/foo" }
        action := some PermissionAction.view }).action =
      AccessControlAction.loginGuidance ∧
    AccessControlAction.loginGuidance ≠ AccessControlAction.completeRestriction := by
  refine ⟨by decide, by decide, by decide⟩

/-- C5, amended: for every request carrying a current role, a resource
and an action, against any registry whose key patterns lie in the
modelled regex fragment, if zero registry rules match the (role,
resource, action) triple then the decision always denies and is never
`unrestricted_access`; its action class is `fully-restricted` exactly
when the current role's strategy grants (so that the rule registry is
consulted) — when the strategy itself denies, its own denial class
(`needs-login` for guest, `needs-role-switch` for the business roles)
is returned instead.  The supported-pattern hypothesis only scopes the
statement to registries on which the embedded matcher agrees with the
source's regex matcher; the conclusion does not depend on it. -/
theorem C5_fail_closed (reg : RuleRegistry) (ctx : PermissionContext)
    (u : UserRoleInfo) (res : Resource) (act : PermissionAction)
    (hu : ctx.userRole = some u) (hres : ctx.resource = some res)
    (hact : ctx.action = some act)
    (_hsup : ∀ kv ∈ reg, patternSupported ((jsSplitColon kv.1).getD 1 "") = true)
    (hzero : ∀ rule ∈ findMatchingRules reg res.type res.id,
      ¬(rule.requiredRoles.contains u.currentRole.type = true ∧
        rule.requiredActions.contains act = true ∧
        (∀ cond, rule.conditions = some cond →
          cond (syntheticContext u.currentRole.type res.type res.id act) = true))) :
    (doCheckPermission reg ctx).hasPermission = false ∧
    (doCheckPermission reg ctx).action ≠ AccessControlAction.unrestrictedAccess ∧
    ((strategyCheckPermission u.currentRole.type ctx).hasPermission = true →
      (doCheckPermission reg ctx).action = AccessControlAction.completeRestriction) := by
  have hrules : checkPermissionRules reg u.currentRole.type res.type res.id act =
      ⟨false, AccessControlAction.completeRestriction, some "没有匹配的权限规则", none⟩ :=
    checkRulesLoop_no_match u.currentRole.type res.type res.id act _ hzero
  cases hs : (strategyCheckPermission u.currentRole.type ctx).hasPermission with
  | false =>
      have heq : doCheckPermission reg ctx = strategyCheckPermission u.currentRole.type ctx := by
        simp [doCheckPermission, hu, hs]
      rw [heq]
      refine ⟨hs, ?_, ?_⟩
      · rw [strategyCheckPermission_eq] at hs ⊢
        exact strategy_deny_not_unrestricted _ _ hs
      · exact fun hcontra => absurd hcontra (by decide)
  | true =>
      have heq : doCheckPermission reg ctx =
          checkPermissionRules reg u.currentRole.type res.type res.id act := by
        simp [doCheckPermission, hu, hres, hact, hs, hrules]
      rw [heq, hrules]
      exact ⟨rfl, by simp, fun _ => rfl⟩

/-- C5 witness: the amended theorem applied to a `channel` principal
requesting `view` on the API resource `/nope`, which no registry rule
matches while the channel strategy grants: the decision is
`fully-restricted`, denying, not unrestricted. -/
theorem C5_witness :
    (doCheckPermission defaultRegistry
      { userRole := some { userId := "u", currentRole := sampleChannelRole,
                           availableRoles := [sampleChannelRole], lastUpdated := 0 }
        resource := some { type := ResourceType.api, id := "/nope" }
        action := some PermissionAction.view }).hasPermission = false ∧
    (doCheckPermission defaultRegistry
      { userRole := some { userId := "u", currentRole := sampleChannelRole,
                           availableRoles := [sampleChannelRole], lastUpdated := 0 }
        resource := some { type := ResourceType.api, id := "/nope" }
        action := some PermissionAction.view }).action =
      AccessControlAction.completeRestriction := by
  have hz : ∀ rule ∈ findMatchingRules defaultRegistry ResourceType.api "/nope",
      ¬(rule.requiredRoles.contains UserRole.channel = true ∧
        rule.requiredActions.contains PermissionAction.view = true ∧
        (∀ cond, rule.conditions = some cond →
          cond (syntheticContext UserRole.channel ResourceType.api "/nope"
            PermissionAction.view) = true)) := by
    intro rule hrule
    have hempty : findMatchingRules defaultRegistry ResourceType.api "/nope" = [] :=
      List.isEmpty_iff.1 (by decide)
    rw [hempty] at hrule
    exact absurd hrule (List.not_mem_nil rule)
  have h := C5_fail_closed defaultRegistry
    { userRole := some { userId := "u", currentRole := sampleChannelRole,
                         availableRoles := [sampleChannelRole], lastUpdated := 0 }
      resource := some { type := ResourceType.api, id := "/nope" }
      action := some PermissionAction.view }
    { userId := "u", currentRole := sampleChannelRole,
      availableRoles := [sampleChannelRole], lastUpdated := 0 }
    { type := ResourceType.api, id := "/nope" } PermissionAction.view
    rfl rfl rfl (by decide) hz
  exact ⟨h.1, h.2.2 (by decide)⟩

/-! ### Claim C7: cache-tier TTL correctness -/

theorem mapGet_mapDelete_self {β : Type} (l : List (String × β)) (k : String) :
    mapGet (mapDelete l k) k = none := by
  unfold mapGet mapDelete
  rw [List.find?_eq_none.2]
  · rfl
  · intro x hx
    have h2 := (List.mem_filter.1 hx).2
    simp only [Bool.not_eq_true'] at h2
    simp [h2]

theorem string_append_left_cancel {p a b : String} (h : p ++ a = p ++ b) :
    a = b := by
  have hd := congrArg String.data h
  rw [String.data_append, String.data_append] at hd
  exact string_data_ext (List.append_cancel_left hd)

/-- `setMemoryCache` for another key, when its eviction (if any) does
not pick `fk`, leaves `fk`'s memory entry alone. -/
theorem mapGet_setMemoryCache_ne {α : Type} (config : CacheConfig)
    (mem : List (String × CacheEntry α)) (k' fk : String) (v' : α)
    (ttl' now : Nat) (hne : fk ≠ k')
    (hev : (if mem.length ≥ config.maxMemoryEntries then evictLRUKey mem now
      else none) ≠ some fk) :
    mapGet (setMemoryCache config mem k' v' ttl' now) fk = mapGet mem fk := by
  unfold setMemoryCache
  rw [mapGet_mapSet_ne _ _ _ _ hne]
  by_cases hcap : mem.length ≥ config.maxMemoryEntries
  · rw [if_pos hcap] at hev ⊢
    cases hlru : evictLRUKey mem now with
    | none => rfl
    | some lruKey =>
        rw [hlru] at hev
        have hlk : fk ≠ lruKey := fun h => hev (by rw [h])
        rw [mapGet_mapDelete_ne _ _ _ hlk]
  · rw [if_neg hcap]

/-- `Set(k, v, ttl)` with a non-zero `ttl` establishes the good shape
with expiry `t0 + ttl` in both tiers. -/
theorem cacheSet_good {α : Type} (config : CacheConfig) (σ : CacheState α)
    (k : String) (v : α) (ttl t0 : Nat) (httl : ttl ≠ 0) :
    goodCacheState config k v (t0 + ttl) (cacheSet config σ k v ttl t0) := by
  have httl' : (ttl == 0) = false := by simpa using httl
  constructor
  · refine ⟨⟨v, t0, t0 + ttl, 1, t0⟩, ?_, rfl, rfl⟩
    show mapGet (setMemoryCache config σ.memoryCache (config.keyPrefix ++ k) v
      (if ttl == 0 then config.memoryTtl else ttl) t0) (config.keyPrefix ++ k) = _
    rw [httl']
    unfold setMemoryCache
    rw [mapGet_mapSet_self]
    simp
  · left
    refine ⟨⟨v, t0, t0 + ttl, 1, t0⟩, ?_, rfl, rfl⟩
    show mapGet (mapSet σ.persistent (config.keyPrefix ++ k)
      { value := v, createdAt := t0
        expiresAt := t0 + (if ttl == 0 then config.persistentTtl else ttl)
        accessCount := 1, lastAccessAt := t0 }) (config.keyPrefix ++ k) = _
    rw [mapGet_mapSet_self, httl']
    simp

/-- The persistent-tier fall-through of `get`, run for a different full
key, preserves the good shape of `k` (its promotion may evict, which
the hypothesis rules out for `k`'s key). -/
theorem cacheGetSlow_preserves {α : Type} (config : CacheConfig)
    (k : String) (v : α) (expiry : Nat) (σ : CacheState α) (fk' : String)
    (now : Nat) (hg : goodCacheState config k v expiry σ)
    (hne : fk' ≠ config.keyPrefix ++ k)
    (hev : (match mapGet σ.persistent fk' with
        | some pe => !(isExpired now pe)
        | none => false) = true →
      (if σ.memoryCache.length ≥ config.maxMemoryEntries
        then evictLRUKey σ.memoryCache now else none) ≠
        some (config.keyPrefix ++ k)) :
    goodCacheState config k v expiry (cacheGetSlow config σ fk' now).2 := by
  obtain ⟨⟨e, hme, hv1, hx1⟩, hp⟩ := hg
  unfold cacheGetSlow
  split
  · rename_i pe hpe
    split
    · rename_i hfresh
      have hev' := hev (by rw [hpe]; exact hfresh)
      refine ⟨⟨e, ?_, hv1, hx1⟩, hp⟩
      rw [mapGet_setMemoryCache_ne config σ.memoryCache fk'
        (config.keyPrefix ++ k) pe.value config.memoryTtl now (Ne.symm hne) hev']
      exact hme
    · refine ⟨⟨e, hme, hv1, hx1⟩, ?_⟩
      rcases hp with ⟨pe2, hpe2, h1, h2⟩ | hnone
      · refine Or.inl ⟨pe2, ?_, h1, h2⟩
        rw [mapGet_mapDelete_ne _ _ _ (Ne.symm hne)]
        exact hpe2
      · right
        rw [mapGet_mapDelete_ne _ _ _ (Ne.symm hne)]
        exact hnone
  · exact ⟨⟨e, hme, hv1, hx1⟩, hp⟩

/-- One non-interfering cache operation preserves the good shape. -/
theorem cacheStep_preserves_good {α : Type} (config : CacheConfig)
    (k : String) (v : α) (expiry : Nat) (σ : CacheState α) (op : CacheOp α)
    (now : Nat) (hg : goodCacheState config k v expiry σ)
    (hallow : allowedBetween k op)
    (hev : stepEvictedKey config σ op now ≠ some (config.keyPrefix ++ k)) :
    goodCacheState config k v expiry (cacheStep config σ op now) := by
  obtain ⟨⟨e, hme, hv1, hx1⟩, hp⟩ := hg
  cases op with
  | clear => exact hallow.elim
  | del key' =>
      have hne : config.keyPrefix ++ k ≠ config.keyPrefix ++ key' :=
        fun h => hallow (string_append_left_cancel h).symm
      refine ⟨⟨e, ?_, hv1, hx1⟩, ?_⟩
      · show mapGet (mapDelete σ.memoryCache (config.keyPrefix ++ key')) _ = _
        rw [mapGet_mapDelete_ne _ _ _ hne]
        exact hme
      · rcases hp with ⟨pe, hpe, h1, h2⟩ | hnone
        · refine Or.inl ⟨pe, ?_, h1, h2⟩
          show mapGet (mapDelete σ.persistent (config.keyPrefix ++ key')) _ = _
          rw [mapGet_mapDelete_ne _ _ _ hne]
          exact hpe
        · refine Or.inr ?_
          show mapGet (mapDelete σ.persistent (config.keyPrefix ++ key')) _ = _
          rw [mapGet_mapDelete_ne _ _ _ hne]
          exact hnone
  | set key' v' ttl' =>
      have hne : config.keyPrefix ++ k ≠ config.keyPrefix ++ key' :=
        fun h => hallow (string_append_left_cancel h).symm
      refine ⟨⟨e, ?_, hv1, hx1⟩, ?_⟩
      · show mapGet (setMemoryCache config σ.memoryCache (config.keyPrefix ++ key')
          v' (if ttl' == 0 then config.memoryTtl else ttl') now) _ = _
        rw [mapGet_setMemoryCache_ne config σ.memoryCache
          (config.keyPrefix ++ key') (config.keyPrefix ++ k) v' _ now hne
          (by simpa only [stepEvictedKey] using hev)]
        exact hme
      · rcases hp with ⟨pe, hpe, h1, h2⟩ | hnone
        · refine Or.inl ⟨pe, ?_, h1, h2⟩
          show mapGet (mapSet σ.persistent (config.keyPrefix ++ key') _) _ = _
          rw [mapGet_mapSet_ne _ _ _ _ hne]
          exact hpe
        · refine Or.inr ?_
          show mapGet (mapSet σ.persistent (config.keyPrefix ++ key') _) _ = _
          rw [mapGet_mapSet_ne _ _ _ _ hne]
          exact hnone
  | get key' =>
      show goodCacheState config k v expiry (cacheGet config σ key' now).2
      by_cases hk : key' = k
      · subst hk
        unfold cacheGet
        simp only [hme]
        split
        · refine ⟨⟨{ e with accessCount := e.accessCount + 1, lastAccessAt := now },
            ?_, hv1, hx1⟩, hp⟩
          exact mapGet_mapSet_self _ _ _
        · rename_i hfr
          have hex : isExpired now e = true := by
            revert hfr
            cases isExpired now e <;> simp
          unfold cacheGetSlow
          rcases hp with ⟨pe, hpe, h1, h2⟩ | hnone
          · simp only [hpe]
            have hpex : isExpired now pe = true := by
              unfold isExpired at hex ⊢
              rw [h2, ← hx1]
              exact hex
            rw [if_neg (by rw [hpex]; exact Bool.false_ne_true)]
            exact ⟨⟨e, hme, hv1, hx1⟩, Or.inr (mapGet_mapDelete_self _ _)⟩
          · simp only [hnone]
            exact ⟨⟨e, hme, hv1, hx1⟩, Or.inr hnone⟩
      · have hne : config.keyPrefix ++ key' ≠ config.keyPrefix ++ k :=
          fun h => hk (string_append_left_cancel h)
        unfold cacheGet
        split
        · rename_i e' hme'
          split
          · refine ⟨⟨e, ?_, hv1, hx1⟩, hp⟩
            show mapGet (mapSet σ.memoryCache (config.keyPrefix ++ key') _) _ = _
            rw [mapGet_mapSet_ne _ _ _ _ (Ne.symm hne)]
            exact hme
          · rename_i hfr'
            have hex' : isExpired now e' = true := by
              revert hfr'
              cases isExpired now e' <;> simp
            refine cacheGetSlow_preserves config k v expiry σ _ now
              ⟨⟨e, hme, hv1, hx1⟩, hp⟩ hne ?_
            intro hfreshp
            simp only [stepEvictedKey, hme', hex', hfreshp, Bool.true_and,
              Bool.and_eq_true, decide_eq_true_eq] at hev
            by_cases hcap : σ.memoryCache.length ≥ config.maxMemoryEntries
            · rw [if_pos hcap]
              simpa [hcap] using hev
            · rw [if_neg hcap]
              exact fun h => Option.noConfusion h
        · rename_i hme'
          refine cacheGetSlow_preserves config k v expiry σ _ now
            ⟨⟨e, hme, hv1, hx1⟩, hp⟩ hne ?_
          intro hfreshp
          simp only [stepEvictedKey, hme', hfreshp, Bool.true_and] at hev
          by_cases hcap : σ.memoryCache.length ≥ config.maxMemoryEntries
          · rw [if_pos hcap]
            simpa [hcap] using hev
          · rw [if_neg hcap]
            exact fun h => Option.noConfusion h

/-- Non-interfering runs preserve the good shape. -/
theorem cacheRun_preserves_good {α : Type} (config : CacheConfig)
    (k : String) (v : α) (expiry : Nat) :
    ∀ (ops : List (CacheOp α × Nat)) (σ : CacheState α),
      goodCacheState config k v expiry σ →
      nonInterfering config k σ ops →
      goodCacheState config k v expiry (cacheRun config σ ops) := by
  intro ops
  induction ops with
  | nil => exact fun σ hg _ => hg
  | cons opn rest ih =>
      intro σ hg hni
      obtain ⟨hallow, hev, hrest⟩ := hni
      exact ih _ (cacheStep_preserves_good config k v expiry σ opn.1 opn.2
        hg hallow hev) hrest

/-- On a good state, `Get(k)` answers `v` up to the expiry and
not-found strictly after it. -/
theorem cacheGet_of_good {α : Type} (config : CacheConfig) (k : String)
    (v : α) (expiry : Nat) (σ : CacheState α)
    (hg : goodCacheState config k v expiry σ) (t : Nat) :
    (cacheGet config σ k t).1 = if t ≤ expiry then some v else none := by
  obtain ⟨⟨e, hme, hv1, hx1⟩, hp⟩ := hg
  unfold cacheGet
  simp only [hme]
  by_cases ht : t ≤ expiry
  · have hfr : isExpired t e = false := by
      unfold isExpired
      rw [hx1]
      simpa using ht
    rw [if_pos (by rw [hfr]; rfl), if_pos ht]
    simpa using hv1
  · have hfr : isExpired t e = true := by
      unfold isExpired
      rw [hx1]
      simpa using Nat.lt_of_not_le ht
    rw [if_neg (by rw [hfr]; exact Bool.false_ne_true), if_neg ht]
    unfold cacheGetSlow
    rcases hp with ⟨pe, hpe, h1, h2⟩ | hnone
    · simp only [hpe]
      have hpex : isExpired t pe = true := by
        unfold isExpired
        rw [h2]
        simpa using Nat.lt_of_not_le ht
      rw [if_neg (by rw [hpex]; exact Bool.false_ne_true)]
    · simp [hnone]

/-- C7 counterexample.  The claim quantifies over every `ttl`, but
`set` computes `ttl || memoryTtl` and `ttl || persistentTtl`: a `ttl`
of `0` is falsy, so the entry is stored with the *default* TTLs
(5 min / 30 min) instead of expiring immediately.  After `Set(k, 42, 0)`
at time 0, a `Get(k)` at time 301 000 ms — long after the requested
`ttl` elapsed (and after the memory default expired too) — still
returns the value from the persistent tier. -/
theorem C7_counterexample :
    (cacheGet defaultCacheConfig
      (cacheSet defaultCacheConfig ⟨[], []⟩ "k" (42 : Nat) 0 0) "k" 301000).1 =
      some 42 := by decide

/-- C7, amended: for every key `k`, value `v` and `ttl ≥ 1`, after
`Set(k, v, ttl)` at time `t0`, and after any sequence of further
operations that contains no `Delete(k)`, `Clear` or overwrite of `k`
and whose LRU evictions never pick `k`, `Get(k)` at time `t` returns
`v` whenever `t ≤ t0 + ttl` and not-found whenever `t > t0 + ttl`: an
expired entry is never returned (with `ttl = 0` falling back to the
configured default TTLs instead). -/
theorem C7_cache_ttl {α : Type} (config : CacheConfig) (σ0 : CacheState α)
    (k : String) (v : α) (ttl t0 : Nat) (httl : ttl ≠ 0)
    (ops : List (CacheOp α × Nat))
    (hni : nonInterfering config k (cacheSet config σ0 k v ttl t0) ops)
    (t : Nat) :
    (cacheGet config (cacheRun config (cacheSet config σ0 k v ttl t0) ops) k t).1 =
      if t ≤ t0 + ttl then some v else none :=
  cacheGet_of_good config k v (t0 + ttl) _
    (cacheRun_preserves_good config k v (t0 + ttl) ops _
      (cacheSet_good config σ0 k v ttl t0 httl) hni) t

/-- C7 witness: the amended theorem at `Set("k", 42, 100)` at time 0
with an interleaved read and write of another key: the value is
returned at time 50 and gone at time 200. -/
theorem C7_witness :
    (cacheGet defaultCacheConfig
      (cacheRun defaultCacheConfig
        (cacheSet defaultCacheConfig ⟨[], []⟩ "k" (42 : Nat) 100 0)
        [(CacheOp.set "other" 7 50, 10), (CacheOp.get "other", 20)]) "k" 50).1 =
      some 42 ∧
    (cacheGet defaultCacheConfig
      (cacheRun defaultCacheConfig
        (cacheSet defaultCacheConfig ⟨[], []⟩ "k" (42 : Nat) 100 0)
        [(CacheOp.set "other" 7 50, 10), (CacheOp.get "other", 20)]) "k" 200).1 =
      none := by
  constructor
  · exact (C7_cache_ttl defaultCacheConfig ⟨[], []⟩ "k" 42 100 0 (by decide)
      [(CacheOp.set "other" 7 50, 10), (CacheOp.get "other", 20)]
      (by unfold nonInterfering
          refine ⟨?_, ?_, ?_, ?_, trivial⟩ <;>
            first
            | decide
            | trivial
            | exact (by decide : "other" ≠ "k")) 50).trans
      (by decide)
  · exact (C7_cache_ttl defaultCacheConfig ⟨[], []⟩ "k" 42 100 0 (by decide)
      [(CacheOp.set "other" 7 50, 10), (CacheOp.get "other", 20)]
      (by unfold nonInterfering
          refine ⟨?_, ?_, ?_, ?_, trivial⟩ <;>
            first
            | decide
            | trivial
            | exact (by decide : "other" ≠ "k")) 200).trans
      (by decide)

end UbPermission
